import Mathlib

/-!
A verification development for `video_analyzer.py` (ComfyUI knowledge base).

The Python source is shallowly embedded: pure data manipulation becomes Lean
functions, database writes become explicit state passing over record types,
and the external world (network, subprocesses, clock, stored procedures) is
supplied through explicit oracle parameters.  Machine integers in the source
are unbounded Python ints, so `Nat` is used directly.
-/

set_option maxRecDepth 100000

namespace VideoAnalyzer

/-! ## JSON values

A minimal JSON value type, enough to describe the dictionaries that
`analyze_video_with_gemini` builds and returns. -/

inductive JVal where
  | str (s : String)
  | num (n : Nat)
  | obj (fields : List (String × JVal))

/-- Python dict lookup `d[k]` / `d.get(k)` on an association list. -/
def dictGet (d : List (String × JVal)) (k : String) : Option JVal :=
  (d.find? (fun p => p.1 == k)).map (fun p => p.2)

/-- Python dict assignment `d[k] = v`: overwrite the existing binding for `k`
    or append a fresh one. -/
def dictSet (d : List (String × JVal)) (k : String) (v : JVal) :
    List (String × JVal) :=
  if d.any (fun p => p.1 == k) then
    d.map (fun p => if p.1 == k then (k, v) else p)
  else
    d ++ [(k, v)]

/-! ## RemoteAnalyzer: response parsing (`analyze_video_with_gemini`, final part)

`text = response.text`; the code-fence markers are stripped, then the text is
parsed as JSON.  On a parse failure the degraded dictionary
`{summary: text[:1000], error: str(e), raw_response: text}` is built instead,
and in either case a `_metadata` block is attached. -/

/-- `text.replace("```json", "")`: delete every (left-to-right,
    non-overlapping) occurrence of the 7-character marker. -/
def stripJsonFence : List Char → List Char
  | '`' :: '`' :: '`' :: 'j' :: 's' :: 'o' :: 'n' :: rest => stripJsonFence rest
  | c :: rest => c :: stripJsonFence rest
  | [] => []

/-- `text.replace("```", "")`: delete every occurrence of the bare fence. -/
def stripFence : List Char → List Char
  | '`' :: '`' :: '`' :: rest => stripFence rest
  | c :: rest => c :: stripFence rest
  | [] => []

/-- Python `str.strip()`: drop leading and trailing whitespace. -/
def trimChars (l : List Char) : List Char :=
  ((l.dropWhile Char.isWhitespace).reverse.dropWhile Char.isWhitespace).reverse

/-- `text.replace("```json", "").replace("```", "").strip()` -/
def stripCodeFences (text : String) : String :=
  String.mk (trimChars (stripFence (stripJsonFence text.data)))

/-- Python slicing `text[:n]` by characters. -/
def takeChars (s : String) (n : Nat) : String :=
  String.mk (s.data.take n)

/-- The tail of `analyze_video_with_gemini` (lines 268-292): strip code
    fences, attempt a JSON parse (`jsonParse` stands for `json.loads`,
    returning the decoded dictionary or the exception message), fall back to
    the degraded dictionary on failure, then attach the `_metadata` block.
    `analyzedAt` stands for `datetime.now().isoformat()` and `usageTokens`
    for `response.usage_metadata.total_token_count` when present. -/
def parseGeminiResponse (jsonParse : String → Except String (List (String × JVal)))
    (responseText : String) (analyzedAt : String) (usageTokens : Option Nat) :
    List (String × JVal) :=
  let text := stripCodeFences responseText
  let analysis :=
    match jsonParse text with
    | .ok a => a
    | .error e =>
        [("summary", JVal.str (takeChars text 1000)),
         ("error", JVal.str e),
         ("raw_response", JVal.str text)]
  dictSet analysis "_metadata" (JVal.obj
    [("model", JVal.str "gemini-1.5-flash"),
     ("analyzed_at", JVal.str analyzedAt),
     ("tokens_used", JVal.num (usageTokens.getD 0))])

/-- C1: a model response whose stripped text is not valid JSON never escapes
    the parsing step as an error: `analyze_video_with_gemini` returns a
    degraded dictionary whose `summary` is the stripped text truncated to
    1000 characters, which carries an `error` marker and the raw stripped
    text, and which still has the `_metadata` block (model identifier,
    completion time, token count defaulting to 0). -/
theorem analyze_video_with_gemini_degraded_on_parse_failure
    (jsonParse : String → Except String (List (String × JVal)))
    (responseText analyzedAt : String) (usageTokens : Option Nat) (e : String)
    (hfail : jsonParse (stripCodeFences responseText) = .error e) :
    dictGet (parseGeminiResponse jsonParse responseText analyzedAt usageTokens)
        "summary" = some (JVal.str (takeChars (stripCodeFences responseText) 1000)) ∧
    dictGet (parseGeminiResponse jsonParse responseText analyzedAt usageTokens)
        "error" = some (JVal.str e) ∧
    dictGet (parseGeminiResponse jsonParse responseText analyzedAt usageTokens)
        "raw_response" = some (JVal.str (stripCodeFences responseText)) ∧
    dictGet (parseGeminiResponse jsonParse responseText analyzedAt usageTokens)
        "_metadata" = some (JVal.obj
          [("model", JVal.str "gemini-1.5-flash"),
           ("analyzed_at", JVal.str analyzedAt),
           ("tokens_used", JVal.num (usageTokens.getD 0))]) := by
  simp only [parseGeminiResponse, hfail]
  exact ⟨rfl, rfl, rfl, rfl⟩

/-- Witness for C1 at the concrete non-JSON response "notjson". -/
theorem analyze_video_with_gemini_degraded_witness :
    dictGet (parseGeminiResponse (fun _ => .error "boom") "notjson" "2024" none)
        "summary" = some (JVal.str "notjson") ∧
    dictGet (parseGeminiResponse (fun _ => .error "boom") "notjson" "2024" none)
        "error" = some (JVal.str "boom") ∧
    dictGet (parseGeminiResponse (fun _ => .error "boom") "notjson" "2024" none)
        "raw_response" = some (JVal.str "notjson") ∧
    dictGet (parseGeminiResponse (fun _ => .error "boom") "notjson" "2024" none)
        "_metadata" = some (JVal.obj
          [("model", JVal.str "gemini-1.5-flash"),
           ("analyzed_at", JVal.str "2024"),
           ("tokens_used", JVal.num 0)]) :=
  analyze_video_with_gemini_degraded_on_parse_failure
    (fun _ => .error "boom") "notjson" "2024" none "boom" rfl

/-! ## Filesystem layout

`DATA_DIR` holds a `videos` area and a `frames` area, each keyed by video id
(`VIDEOS_DIR / str(video_id) / "video.mp4"`, `FRAMES_DIR / str(video_id) /
"frame_<ts:05d>s.jpg"`).  A path is modelled structurally as
(area, video id, file name); the two areas are distinct directories. -/

structure FDir where
  area : String
  vid : Nat
deriving DecidableEq, Repr

structure FsPath where
  dir : FDir
  name : String
deriving DecidableEq, Repr

/-- Python `f"{n:05d}"` for a non-negative `n`: pad with zeros to width 5. -/
def pad5 (n : Nat) : String :=
  let s := toString n
  String.mk (List.replicate (5 - s.length) '0') ++ s

/-- `output_dir / f"frame_{ts:05d}s.jpg"` -/
def framePathIn (d : FDir) (ts : Nat) : FsPath :=
  ⟨d, "frame_" ++ pad5 ts ++ "s.jpg"⟩

/-- `VIDEOS_DIR / str(video_id) / "video.mp4"` -/
def videoFilePath (video_id : Nat) : FsPath :=
  ⟨⟨"videos", video_id⟩, "video.mp4"⟩

/-- `FRAMES_DIR / str(video_id)` -/
def framesDir (video_id : Nat) : FDir :=
  ⟨"frames", video_id⟩

/-! ## Relational store

Row shapes for the three tables the pipeline touches.  Only the columns the
code reads or writes are modelled; `updated_at` is a `Nat` timestamp and
`NOW()` is passed in explicitly as `now`. -/

structure VideoRow where
  id : Nat
  url : String
  title : String
  description : String
  analysis_status : String
  frames_status : String
  updated_at : Nat
deriving DecidableEq, Repr

structure AnalysisRow where
  video_id : Nat
  summary : String
  summary_pt : String
  difficulty_level : String
  key_topics : List String
  techniques_shown : List String
  models_mentioned : List String
  custom_nodes_mentioned : List String
  prerequisites : List String
  raw_response : String
  model_used : String
  tokens_used : Nat
  updated_at : Nat
deriving DecidableEq, Repr

structure MomentRow where
  video_id : Nat
  timestamp_seconds : Nat
  timestamp_formatted : String
  moment_type : String
  description : String
  nodes_visible : List String
  importance_score : Nat
  frame_path : Option FsPath
deriving DecidableEq, Repr

structure DB where
  videos : List VideoRow
  video_analysis : List AnalysisRow
  video_moments : List MomentRow
deriving DecidableEq, Repr

/-! ## The analysis dictionary as read by `save_analysis_to_db`

`save_analysis_to_db` reads the analysis dictionary with `.get` and a
default for every field; the record below holds the values those reads
produce (so a missing key is represented by its documented default:
`difficulty = "intermediate"`, `type = "other"`, `importance = 5`,
`meta_model = "gemini-1.5-flash"`, `meta_tokens = 0`, empty string/list
elsewhere).  `rawDump` stands for `json.dumps(analysis)`. -/

structure KeyMoment where
  timestamp_seconds : Nat
  timestamp_formatted : String
  type : String
  description : String
  nodes_visible : List String
  importance : Nat
deriving DecidableEq, Repr

structure Analysis where
  summary : String
  summary_pt : String
  difficulty : String
  key_topics : List String
  techniques : List String
  models_mentioned : List String
  custom_nodes_mentioned : List String
  prerequisites : List String
  key_moments : List KeyMoment
  rawDump : String
  meta_model : String
  meta_tokens : Nat
deriving DecidableEq, Repr

/-- The tuple bound by the `INSERT INTO video_analysis ... VALUES` statement
    (insert path of the upsert). -/
def analysisRowOf (video_id : Nat) (a : Analysis) (now : Nat) : AnalysisRow :=
  { video_id := video_id
    summary := a.summary
    summary_pt := a.summary_pt
    difficulty_level := a.difficulty
    key_topics := a.key_topics
    techniques_shown := a.techniques
    models_mentioned := a.models_mentioned
    custom_nodes_mentioned := a.custom_nodes_mentioned
    prerequisites := a.prerequisites
    raw_response := a.rawDump
    model_used := a.meta_model
    tokens_used := a.meta_tokens
    updated_at := now }

/-- The `ON CONFLICT (video_id) DO UPDATE SET` clause: only the listed subset
    of columns plus `updated_at = NOW()` is overwritten; every other column
    keeps the existing row's value. -/
def updateAnalysisRow (r new : AnalysisRow) : AnalysisRow :=
  { r with
    summary := new.summary
    summary_pt := new.summary_pt
    difficulty_level := new.difficulty_level
    key_topics := new.key_topics
    techniques_shown := new.techniques_shown
    raw_response := new.raw_response
    updated_at := new.updated_at }

/-- The upsert on `video_analysis` keyed by `video_id`.  The uniqueness
    constraint named by `ON CONFLICT (video_id)` lives in the SQL schema,
    outside `src/`; modelled from the spec: at most one AnalysisResult per
    VideoJob, upsert key = video id. -/
def upsertAnalysis (t : List AnalysisRow) (new : AnalysisRow) : List AnalysisRow :=
  if t.any (fun r => r.video_id == new.video_id) then
    t.map (fun r => if r.video_id == new.video_id then updateAnalysisRow r new else r)
  else
    t ++ [new]

/-- The tuple bound by the `INSERT INTO video_moments ... VALUES` statement.
    `frame_path` is not in the column list (populated later by
    `process_video`). -/
def momentRowOf (video_id : Nat) (m : KeyMoment) : MomentRow :=
  { video_id := video_id
    timestamp_seconds := m.timestamp_seconds
    timestamp_formatted := m.timestamp_formatted
    moment_type := m.type
    description := m.description
    nodes_visible := m.nodes_visible
    importance_score := m.importance
    frame_path := none }

/-- `INSERT INTO video_moments ... ON CONFLICT DO NOTHING`.  The advisory
    unique key on (video id, timestamp) lives in the SQL schema, outside
    `src/`; modelled from the spec: duplicate insert is a no-op, not an
    error. -/
def insertMoment (t : List MomentRow) (m : MomentRow) : List MomentRow :=
  if t.any (fun r => r.video_id == m.video_id && r.timestamp_seconds == m.timestamp_seconds) then
    t
  else
    t ++ [m]

/-- `UPDATE videos SET analysis_status = 'completed', updated_at = NOW()
    WHERE id = %s` -/
def setAnalysisCompleted (vs : List VideoRow) (video_id now : Nat) : List VideoRow :=
  vs.map (fun v =>
    if v.id == video_id then
      { v with analysis_status := "completed", updated_at := now }
    else v)

/-! ## `save_analysis_to_db` and the transaction scope

`DatabaseConnection.__exit__` commits the connection when the block finishes
normally and rolls it back when the block raised.  Writes executed inside
the block are staged on the connection: they become observable only at
commit.  A raising `cur.execute` is injected through `failAt`, the index of
the statement (0 = upsert, `1 ..` = one per key moment, last = status
update) whose execution raises; `none` means no statement raises. -/

def execStep (failAt : Option Nat) (i : Nat) (f : DB → DB) (db : DB) :
    Except Unit DB :=
  if failAt = some i then .error () else .ok (f db)

/-- Sequencing inside the `with` block: a raising statement aborts the block
    at that point; otherwise the staged state flows into the next statement. -/
def andThen (x : Except Unit DB) (k : DB → Except Unit DB) : Except Unit DB :=
  match x with
  | .error e => .error e
  | .ok db => k db

@[simp] theorem andThen_ok (db : DB) (k : DB → Except Unit DB) :
    andThen (.ok db) k = k db := rfl

@[simp] theorem andThen_error (e : Unit) (k : DB → Except Unit DB) :
    andThen (.error e) k = .error e := rfl

/-- The `for moment in analysis.get("key_moments", [])` insert loop,
    statement indices starting at `i`. -/
def insertMomentsFrom (failAt : Option Nat) (video_id : Nat) :
    List KeyMoment → Nat → DB → Except Unit DB
  | [], _, db => .ok db
  | m :: rest, i, db =>
      andThen (execStep failAt i
        (fun db => { db with
          video_moments := insertMoment db.video_moments (momentRowOf video_id m) }) db)
        (fun db' => insertMomentsFrom failAt video_id rest (i + 1) db')

/-- The body of `save_analysis_to_db`'s `with DatabaseConnection()` block:
    the three writes in source order, on the staged connection state. -/
def saveAnalysisBody (failAt : Option Nat) (video_id : Nat) (a : Analysis)
    (now : Nat) (db : DB) : Except Unit DB :=
  andThen (execStep failAt 0
    (fun db => { db with
      video_analysis := upsertAnalysis db.video_analysis (analysisRowOf video_id a now) }) db)
    (fun db1 =>
      andThen (insertMomentsFrom failAt video_id a.key_moments 1 db1)
        (fun db2 =>
          execStep failAt (1 + a.key_moments.length)
            (fun db => { db with videos := setAnalysisCompleted db.videos video_id now }) db2))

/-- `DatabaseConnection.__exit__`: commit the staged state on normal exit,
    roll back to the entry state if the body raised. -/
def withTransaction (body : DB → Except Unit DB) (db : DB) : DB :=
  match body db with
  | .ok db' => db'
  | .error _ => db

def save_analysis_to_db (failAt : Option Nat) (video_id : Nat) (a : Analysis)
    (now : Nat) (db : DB) : DB :=
  withTransaction (saveAnalysisBody failAt video_id a now) db

/-- The moment-insert loop as a pure fold (no failure). -/
def insertMoments (t : List MomentRow) (video_id : Nat) (ms : List KeyMoment) :
    List MomentRow :=
  ms.foldl (fun t m => insertMoment t (momentRowOf video_id m)) t

/-- All three writes of `save_analysis_to_db`, applied without failure. -/
def applyAnalysisWrites (video_id : Nat) (a : Analysis) (now : Nat) (db : DB) : DB :=
  { db with
    video_analysis := upsertAnalysis db.video_analysis (analysisRowOf video_id a now)
    video_moments := insertMoments db.video_moments video_id a.key_moments
    videos := setAnalysisCompleted db.videos video_id now }

/-! ## Transactional behaviour of `save_analysis_to_db` -/

/-- Does the injected failure index fall among statements
    `lo, lo+1, ..., lo+len-1`? -/
def failsIn (failAt : Option Nat) (lo len : Nat) : Bool :=
  match failAt with
  | none => false
  | some j => lo ≤ j && j < lo + len

theorem insertMomentsFrom_eq (failAt : Option Nat) (vid : Nat) :
    ∀ (ms : List KeyMoment) (i : Nat) (db : DB),
    insertMomentsFrom failAt vid ms i db =
      if failsIn failAt i ms.length then .error ()
      else .ok { db with video_moments := insertMoments db.video_moments vid ms }
  | [], i, db => by
      cases failAt with
      | none => rfl
      | some j =>
          rw [show failsIn (some j) i ([] : List KeyMoment).length = false by
            simp [failsIn]]
          rfl
  | m :: rest, i, db => by
      have ih := insertMomentsFrom_eq failAt vid rest (i + 1)
      cases failAt with
      | none =>
          simp only [insertMomentsFrom, execStep,
            if_neg (by simp : ¬(none : Option Nat) = some i), andThen_ok, ih]
          rfl
      | some j =>
          by_cases hji : j = i
          · subst hji
            simp only [insertMomentsFrom, execStep, if_pos rfl, andThen_error]
            rw [show failsIn (some j) j (m :: rest).length = true by
              simp [failsIn] <;> omega]
            rfl
          · have hne : ¬((some j : Option Nat) = some i) :=
              fun h => hji (Option.some.inj h)
            simp only [insertMomentsFrom, execStep, if_neg hne, andThen_ok, ih]
            by_cases hr : i + 1 ≤ j ∧ j < i + 1 + rest.length
            · rw [show failsIn (some j) (i + 1) rest.length = true by
                  simp [failsIn] <;> omega,
                show failsIn (some j) i (m :: rest).length = true by
                  simp [failsIn] <;> omega]
              rfl
            · rw [show failsIn (some j) (i + 1) rest.length = false by
                  simp only [failsIn, Bool.and_eq_false_iff,
                    decide_eq_false_iff_not]
                  omega,
                show failsIn (some j) i (m :: rest).length = false by
                  simp only [failsIn, Bool.and_eq_false_iff,
                    decide_eq_false_iff_not, List.length_cons]
                  omega]
              rfl

theorem saveAnalysisBody_eq (failAt : Option Nat) (vid : Nat) (a : Analysis)
    (now : Nat) (db : DB) :
    saveAnalysisBody failAt vid a now db =
      if failsIn failAt 0 (2 + a.key_moments.length) then .error ()
      else .ok (applyAnalysisWrites vid a now db) := by
  cases failAt with
  | none =>
      simp only [saveAnalysisBody, execStep,
        if_neg (by simp : ¬(none : Option Nat) = some 0), andThen_ok,
        insertMomentsFrom_eq, failsIn, Bool.false_eq_true, if_false, andThen_ok]
      rfl
  | some j =>
      by_cases h0 : j = 0
      · subst h0
        simp only [saveAnalysisBody, execStep, if_pos rfl, andThen_error]
        rw [show failsIn (some 0) 0 (2 + a.key_moments.length) = true by
          simp [failsIn]]
        rfl
      · have hne0 : ¬((some j : Option Nat) = some 0) :=
          fun h => h0 (Option.some.inj h)
        simp only [saveAnalysisBody, execStep, if_neg hne0, andThen_ok,
          insertMomentsFrom_eq]
        by_cases hmid : 1 ≤ j ∧ j < 1 + a.key_moments.length
        · rw [show failsIn (some j) 1 a.key_moments.length = true by
              simp [failsIn] <;> omega,
            show failsIn (some j) 0 (2 + a.key_moments.length) = true by
              simp [failsIn] <;> omega]
          rfl
        · rw [show failsIn (some j) 1 a.key_moments.length = false by
              simp only [failsIn, Bool.and_eq_false_iff, decide_eq_false_iff_not]
              omega]
          simp only [Bool.false_eq_true, if_false, andThen_ok]
          by_cases hlast : j = 1 + a.key_moments.length
          · rw [if_pos (by rw [hlast]),
              show failsIn (some j) 0 (2 + a.key_moments.length) = true by
                simp [failsIn] <;> omega]
            rfl
          · rw [if_neg (fun h => hlast (Option.some.inj h)),
              show failsIn (some j) 0 (2 + a.key_moments.length) = false by
                simp only [failsIn, Bool.and_eq_false_iff, decide_eq_false_iff_not]
                omega]
            rfl

/-- C2: the three writes of `save_analysis_to_db` (upsert of the analysis
    row, insertion of every key moment, update of the video's status to
    completed) live in one transaction: if any statement raises, the
    connection is rolled back and the database is exactly its prior state
    (the job keeps its prior status); if none raises, all three writes are
    committed together.  No partial state is ever observable. -/
theorem save_analysis_to_db_transactional (failAt : Option Nat) (vid : Nat)
    (a : Analysis) (now : Nat) (db : DB) :
    (save_analysis_to_db failAt vid a now db = db ∨
     save_analysis_to_db failAt vid a now db = applyAnalysisWrites vid a now db) ∧
    (failAt = none →
     save_analysis_to_db failAt vid a now db = applyAnalysisWrites vid a now db) ∧
    (∀ i, failAt = some i → i < 2 + a.key_moments.length →
     save_analysis_to_db failAt vid a now db = db) := by
  unfold save_analysis_to_db withTransaction
  rw [saveAnalysisBody_eq]
  by_cases h : failsIn failAt 0 (2 + a.key_moments.length) = true
  · rw [if_pos h]
    refine ⟨Or.inl rfl, ?_, fun i hi hlt => rfl⟩
    intro hnone
    subst hnone
    simp [failsIn] at h
  · rw [if_neg h]
    refine ⟨Or.inr rfl, fun _ => rfl, fun i hi hlt => ?_⟩
    subst hi
    simp only [failsIn, Bool.and_eq_true, decide_eq_true_eq] at h
    omega

/-! Concrete example data used by the witnesses. -/

def mEx : KeyMoment :=
  { timestamp_seconds := 10, timestamp_formatted := "00:10", type := "tip",
    description := "d", nodes_visible := ["n"], importance := 8 }

def aEx : Analysis :=
  { summary := "s", summary_pt := "sp", difficulty := "beginner",
    key_topics := ["k"], techniques := ["t"], models_mentioned := ["m"],
    custom_nodes_mentioned := ["c"], prerequisites := ["p"],
    key_moments := [mEx], rawDump := "raw", meta_model := "gm",
    meta_tokens := 3 }

def aEx2 : Analysis :=
  { summary := "s2", summary_pt := "sp2", difficulty := "advanced",
    key_topics := ["k2"], techniques := ["t2"], models_mentioned := ["m2"],
    custom_nodes_mentioned := ["c2"], prerequisites := ["p2"],
    key_moments := [], rawDump := "raw2", meta_model := "gm2",
    meta_tokens := 4 }

def vEx : VideoRow :=
  { id := 1, url := "u", title := "t", description := "d",
    analysis_status := "pending", frames_status := "pending",
    updated_at := 0 }

def dbEx : DB := { videos := [vEx], video_analysis := [], video_moments := [] }

/-- Witness for C2: a raising statement (index 0, the upsert) leaves the
    database untouched. -/
theorem save_analysis_to_db_transactional_witness :
    save_analysis_to_db (some 0) 1 aEx 5 dbEx = dbEx :=
  (save_analysis_to_db_transactional (some 0) 1 aEx 5 dbEx).2.2 0 rfl
    (by decide)

/-! ## Upsert semantics (C3) -/

theorem save_none_eq_applyWrites (vid : Nat) (a : Analysis) (now : Nat) (db : DB) :
    save_analysis_to_db none vid a now db = applyAnalysisWrites vid a now db := by
  unfold save_analysis_to_db withTransaction
  rw [saveAnalysisBody_eq]
  rfl

theorem upsertAnalysis_insert (t : List AnalysisRow) (new : AnalysisRow)
    (h : ∀ r ∈ t, r.video_id ≠ new.video_id) :
    upsertAnalysis t new = t ++ [new] := by
  unfold upsertAnalysis
  rw [if_neg]
  intro hx
  simp only [List.any_eq_true, beq_iff_eq] at hx
  obtain ⟨r, hr, hrv⟩ := hx
  exact h r hr hrv

/-- C3: two successive saves for the same video id leave exactly one
    `video_analysis` row for that id.  The surviving row carries the second
    save's values for the conflict-update subset (summary, summary_pt,
    difficulty_level, key_topics, techniques_shown, raw_response) plus the
    second save's modification timestamp, while every column outside that
    subset (models_mentioned, custom_nodes_mentioned, prerequisites,
    model_used, tokens_used) keeps the first save's values. -/
theorem save_analysis_to_db_upsert_twice (db : DB) (vid : Nat)
    (a1 a2 : Analysis) (now1 now2 : Nat)
    (h : ∀ r ∈ db.video_analysis, r.video_id ≠ vid) :
    ((save_analysis_to_db none vid a2 now2
        (save_analysis_to_db none vid a1 now1 db)).video_analysis.filter
          (fun r => r.video_id == vid) =
      [{ analysisRowOf vid a1 now1 with
          summary := a2.summary
          summary_pt := a2.summary_pt
          difficulty_level := a2.difficulty
          key_topics := a2.key_topics
          techniques_shown := a2.techniques
          raw_response := a2.rawDump
          updated_at := now2 }]) ∧
    ((save_analysis_to_db none vid a2 now2
        (save_analysis_to_db none vid a1 now1 db)).video_analysis.countP
          (fun r => r.video_id == vid) = 1) := by
  have hva1 : (save_analysis_to_db none vid a1 now1 db).video_analysis =
      db.video_analysis ++ [analysisRowOf vid a1 now1] := by
    rw [save_none_eq_applyWrites]
    show upsertAnalysis db.video_analysis (analysisRowOf vid a1 now1) = _
    exact upsertAnalysis_insert _ _ (fun r hr => h r hr)
  have hva2 : (save_analysis_to_db none vid a2 now2
      (save_analysis_to_db none vid a1 now1 db)).video_analysis =
      db.video_analysis ++
        [updateAnalysisRow (analysisRowOf vid a1 now1) (analysisRowOf vid a2 now2)] := by
    rw [save_none_eq_applyWrites]
    show upsertAnalysis (save_analysis_to_db none vid a1 now1 db).video_analysis
        (analysisRowOf vid a2 now2) = _
    rw [hva1]
    unfold upsertAnalysis
    rw [if_pos (by
      simp only [List.any_append, List.any_cons, List.any_nil, Bool.or_false]
      apply Bool.or_eq_true_iff.mpr
      right
      simp [analysisRowOf])]
    rw [List.map_append]
    congr 1
    · refine (List.map_congr_left ?_).trans (List.map_id _)
      intro r hr
      rw [if_neg]
      · rfl
      · simp only [beq_iff_eq]
        exact h r hr
    · simp only [List.map_cons, List.map_nil]
      rw [if_pos (by simp [analysisRowOf])]
  have hfilter : (save_analysis_to_db none vid a2 now2
      (save_analysis_to_db none vid a1 now1 db)).video_analysis.filter
        (fun r => r.video_id == vid) =
      [updateAnalysisRow (analysisRowOf vid a1 now1) (analysisRowOf vid a2 now2)] := by
    rw [hva2, List.filter_append]
    rw [List.filter_eq_nil_iff.mpr (by
      intro r hr
      simp only [beq_iff_eq]
      exact h r hr)]
    simp [updateAnalysisRow, analysisRowOf]
  constructor
  · rw [hfilter]
    rfl
  · rw [List.countP_eq_length_filter, hfilter]
    rfl

/-- Witness for C3 starting from a store with no analysis row for video 1. -/
theorem save_analysis_to_db_upsert_twice_witness :
    ((save_analysis_to_db none 1 aEx2 20
        (save_analysis_to_db none 1 aEx 10 dbEx)).video_analysis.filter
          (fun r => r.video_id == 1) =
      [{ analysisRowOf 1 aEx 10 with
          summary := aEx2.summary
          summary_pt := aEx2.summary_pt
          difficulty_level := aEx2.difficulty
          key_topics := aEx2.key_topics
          techniques_shown := aEx2.techniques
          raw_response := aEx2.rawDump
          updated_at := 20 }]) ∧
    ((save_analysis_to_db none 1 aEx2 20
        (save_analysis_to_db none 1 aEx 10 dbEx)).video_analysis.countP
          (fun r => r.video_id == 1) = 1) :=
  save_analysis_to_db_upsert_twice dbEx 1 aEx aEx2 10 20
    (fun r hr => absurd hr (List.not_mem_nil r))

/-! ## Key-moment uniqueness (C4) -/

/-- No two rows share the advisory key (video id, timestamp). -/
def momentsUnique (t : List MomentRow) : Prop :=
  t.Pairwise (fun r s =>
    ¬(r.video_id = s.video_id ∧ r.timestamp_seconds = s.timestamp_seconds))

theorem insertMoment_momentsUnique (t : List MomentRow) (m : MomentRow)
    (h : momentsUnique t) : momentsUnique (insertMoment t m) := by
  unfold insertMoment
  by_cases hc : (t.any fun r =>
      r.video_id == m.video_id && r.timestamp_seconds == m.timestamp_seconds) = true
  · rw [if_pos hc]; exact h
  · rw [if_neg hc]
    unfold momentsUnique
    rw [List.pairwise_append]
    refine ⟨h, List.pairwise_singleton _ _, ?_⟩
    intro r hr s hs
    simp only [List.mem_singleton] at hs
    subst hs
    intro hk
    apply hc
    simp only [List.any_eq_true]
    exact ⟨r, hr, by simp [hk.1, hk.2]⟩

theorem insertMoments_momentsUnique (vid : Nat) :
    ∀ (ms : List KeyMoment) (t : List MomentRow), momentsUnique t →
    momentsUnique (insertMoments t vid ms)
  | [], t, h => h
  | m :: rest, t, h =>
      insertMoments_momentsUnique vid rest _
        (insertMoment_momentsUnique t (momentRowOf vid m) h)

/-- C4: inserting a key moment whose (video id, timestamp) key is already
    present is a no-op, not an error (the second of two identical inserts
    changes nothing), and every `save_analysis_to_db` call preserves the
    invariant that no two `video_moments` rows share (video id, timestamp). -/
theorem key_moment_duplicate_insert_noop (t : List MomentRow) (m : MomentRow)
    (failAt : Option Nat) (vid : Nat) (a : Analysis) (now : Nat) (db : DB) :
    insertMoment (insertMoment t m) m = insertMoment t m ∧
    (momentsUnique db.video_moments →
      momentsUnique (save_analysis_to_db failAt vid a now db).video_moments) := by
  constructor
  · by_cases hc : (t.any fun r =>
        r.video_id == m.video_id && r.timestamp_seconds == m.timestamp_seconds) = true
    · have h1 : insertMoment t m = t := by rw [insertMoment, if_pos hc]
      rw [h1]
      exact h1
    · have h1 : insertMoment t m = t ++ [m] := by rw [insertMoment, if_neg hc]
      rw [h1, insertMoment, if_pos]
      simp [List.any_append]
  · intro h
    unfold save_analysis_to_db withTransaction
    rw [saveAnalysisBody_eq]
    by_cases hf : failsIn failAt 0 (2 + a.key_moments.length) = true
    · rw [if_pos hf]; exact h
    · rw [if_neg hf]
      exact insertMoments_momentsUnique vid a.key_moments db.video_moments h

/-- Witness for C4: a duplicate insert of the same moment row is a no-op,
    and a concrete save run preserves key uniqueness. -/
theorem key_moment_duplicate_insert_noop_witness :
    insertMoment (insertMoment [] (momentRowOf 1 mEx)) (momentRowOf 1 mEx) =
      insertMoment [] (momentRowOf 1 mEx) ∧
    momentsUnique (save_analysis_to_db none 1 aEx 5 dbEx).video_moments :=
  ⟨(key_moment_duplicate_insert_noop [] (momentRowOf 1 mEx) none 1 aEx 5 dbEx).1,
   (key_moment_duplicate_insert_noop [] (momentRowOf 1 mEx) none 1 aEx 5 dbEx).2
     List.Pairwise.nil⟩

/-! ## RateLimiter (`check_rate_limit`, `wait_for_rate_limit`) -/

structure RateCounter where
  count : Nat
  limit : Nat
deriving DecidableEq, Repr

/-- Modelled from the spec: the `check_and_increment_rate_limit` stored
    procedure is owned by the database and lives outside `src/`; the spec
    describes it as a single atomic check-and-increment that grants and
    consumes one unit of quota while below the window limit, and denies
    without consuming otherwise. -/
def check_and_increment_rate_limit (c : RateCounter) : Bool × RateCounter :=
  if c.count < c.limit then (true, { c with count := c.count + 1 })
  else (false, c)

/-- The polling loop of `wait_for_rate_limit` over an abstract stateful
    check (`check_rate_limit` opens a connection and calls the stored
    procedure; its state type is abstract here).  Result: (granted?, number
    of check calls, number of 10-second sleeps, final check state);
    `granted? = false` models the raised timeout exception.  The poll
    interval 10 and the `waited` accounting are literal from the source. -/
def waitLoop {σ : Type} (check : σ → Bool × σ) (maxWait : Nat)
    (waited : Nat) (s : σ) : Bool × Nat × Nat × σ :=
  let r := check s
  if r.1 then (true, 1, 0, r.2)
  else if _h : waited ≥ maxWait then (false, 1, 0, r.2)
  else
    let t := waitLoop check maxWait (waited + 10) r.2
    (t.1, t.2.1 + 1, t.2.2.1 + 1, t.2.2.2)
termination_by maxWait - waited
decreasing_by omega

def wait_for_rate_limit {σ : Type} (check : σ → Bool × σ) (maxWait : Nat)
    (s : σ) : Bool × Nat × Nat × σ :=
  waitLoop check maxWait 0 s

theorem waitLoop_denied {σ : Type} (check : σ → Bool × σ)
    (hdeny : ∀ t, (check t).1 = false) (maxWait : Nat) :
    ∀ (n waited : Nat) (s : σ), waited + 10 * n = maxWait →
    ∃ s', waitLoop check maxWait waited s = (false, n + 1, n, s') := by
  intro n
  induction n with
  | zero =>
      intro waited s hw
      refine ⟨(check s).2, ?_⟩
      rw [waitLoop]
      simp only [hdeny (s), Bool.false_eq_true, if_false]
      rw [dif_pos (by omega)]
  | succ n ih =>
      intro waited s hw
      obtain ⟨s', hs'⟩ := ih (waited + 10) (check s).2 (by omega)
      refine ⟨s', ?_⟩
      rw [waitLoop]
      simp only [hdeny (s), Bool.false_eq_true, if_false]
      rw [dif_neg (by omega)]
      simp [hs']

/-- The state seen after `n` calls of a stateful check. -/
def iterCheck {σ : Type} (check : σ → Bool × σ) : Nat → σ → σ
  | 0, s => s
  | n + 1, s => (check (iterCheck check n s)).2

theorem iterCheck_succ_front {σ : Type} (check : σ → Bool × σ) :
    ∀ (n : Nat) (s : σ),
      iterCheck check (n + 1) s = iterCheck check n (check s).2
  | 0, _ => rfl
  | n + 1, s => by
      show (check (iterCheck check (n + 1) s)).2 =
        (check (iterCheck check n (check s).2)).2
      rw [iterCheck_succ_front check n s]

theorem check_and_increment_grant_eq (c : RateCounter)
    (h : c.count < c.limit) :
    check_and_increment_rate_limit c =
      (true, { c with count := c.count + 1 }) := by
  simp [check_and_increment_rate_limit, if_pos h]

theorem check_and_increment_deny_eq (c : RateCounter)
    (h : ¬ c.count < c.limit) :
    check_and_increment_rate_limit c = (false, c) := by
  simp [check_and_increment_rate_limit, if_neg h]

theorem waitLoop_granted {σ : Type} (check : σ → Bool × σ) (maxWait : Nat) :
    ∀ (k waited : Nat) (s : σ), waited + 10 * k ≤ maxWait →
      (∀ j, j < k → (check (iterCheck check j s)).1 = false) →
      (check (iterCheck check k s)).1 = true →
      waitLoop check maxWait waited s =
        (true, k + 1, k, (check (iterCheck check k s)).2) := by
  intro k
  induction k with
  | zero =>
      intro waited s _ _ hgrant
      rw [waitLoop]
      simp only [iterCheck] at hgrant ⊢
      simp [hgrant]
  | succ k ih =>
      intro waited s hw hdeny hgrant
      have h0 : (check s).1 = false := by
        have h00 := hdeny 0 (by omega)
        simpa [iterCheck] using h00
      rw [waitLoop]
      simp only [h0, Bool.false_eq_true, if_false]
      rw [dif_neg (by omega)]
      have hrec := ih (waited + 10) (check s).2 (by omega)
        (fun j hj => by
          rw [← iterCheck_succ_front check j s]
          exact hdeny (j + 1) (by omega))
        (by rw [← iterCheck_succ_front check k s]; exact hgrant)
      simp [hrec, iterCheck_succ_front check k s]

/-- The check seen by the polling loop: `check_rate_limit` opens a fresh
    connection each poll and calls the stored procedure on the counter the
    database holds at that moment; `world i c` is the counter the stored
    procedure sees on poll `i` given the counter `c` left by the previous
    poll (modelling window expiry between polls; `world i c = c` is a
    frozen window).  The state carries the poll index and the counter. -/
def pollCheck (world : Nat → RateCounter → RateCounter)
    (s : Nat × RateCounter) : Bool × (Nat × RateCounter) :=
  let r := check_and_increment_rate_limit (world s.1 s.2)
  (r.1, (s.1 + 1, r.2))

/-- The counter left behind after poll `j` (before the world acts again). -/
def counterAfter (world : Nat → RateCounter → RateCounter)
    (c0 : RateCounter) : Nat → RateCounter
  | 0 => c0
  | j + 1 => (check_and_increment_rate_limit
      (world j (counterAfter world c0 j))).2

/-- The counter the stored procedure sees on poll `j`. -/
def counterBefore (world : Nat → RateCounter → RateCounter)
    (c0 : RateCounter) (j : Nat) : RateCounter :=
  world j (counterAfter world c0 j)

theorem iterCheck_pollCheck (world : Nat → RateCounter → RateCounter)
    (c0 : RateCounter) :
    ∀ j, iterCheck (pollCheck world) j (0, c0) =
      (j, counterAfter world c0 j)
  | 0 => rfl
  | j + 1 => by
      show (pollCheck world (iterCheck (pollCheck world) j (0, c0))).2 =
        (j + 1, counterAfter world c0 (j + 1))
      rw [iterCheck_pollCheck world c0 j]
      rfl

/-- C7: when the counter denies every check, `wait_for_rate_limit` raises a
    timeout failure once `max_wait` is exceeded, after exactly
    `max_wait / 10 + 1` check calls (one more than `max_wait` divided by the
    10-second poll interval) with one 10-second sleep between consecutive
    checks; when some check is granted before the bound — the first `k`
    polls denied and the stored procedure granting on poll `k`, reached
    after `10 * k ≤ max_wait` seconds of waiting — the call returns without
    error after `k + 1` checks and `k` sleeps, and the granting call
    consumes exactly one unit of quota; in particular a grant on the very
    first check returns immediately with the count incremented by one. -/
theorem wait_for_rate_limit_spec {σ : Type} (check : σ → Bool × σ) (s : σ)
    (maxWait : Nat) (world : Nat → RateCounter → RateCounter)
    (c0 c : RateCounter) (k : Nat) :
    (maxWait % 10 = 0 → (∀ t, (check t).1 = false) →
      ∃ s', wait_for_rate_limit check maxWait s =
        (false, maxWait / 10 + 1, maxWait / 10, s')) ∧
    (10 * k ≤ maxWait →
      (∀ j, j < k →
        ¬ (counterBefore world c0 j).count < (counterBefore world c0 j).limit) →
      (counterBefore world c0 k).count < (counterBefore world c0 k).limit →
      wait_for_rate_limit (pollCheck world) maxWait (0, c0) =
        (true, k + 1, k,
          (k + 1, { counterBefore world c0 k with
            count := (counterBefore world c0 k).count + 1 }))) ∧
    (c.count < c.limit →
      wait_for_rate_limit check_and_increment_rate_limit maxWait c =
        (true, 1, 0, { c with count := c.count + 1 })) := by
  refine ⟨fun h10 hdeny => ?_, fun hk hbefore hgrant => ?_,
    fun hgrant1 => ?_⟩
  · exact waitLoop_denied check hdeny maxWait (maxWait / 10) 0 s (by omega)
  · unfold wait_for_rate_limit
    have hres := waitLoop_granted (pollCheck world) maxWait k 0 (0, c0)
      (by omega)
      (fun j hj => by
        rw [iterCheck_pollCheck world c0 j]
        show (check_and_increment_rate_limit (counterBefore world c0 j)).1 =
          false
        rw [check_and_increment_deny_eq (counterBefore world c0 j)
          (hbefore j hj)])
      (by
        rw [iterCheck_pollCheck world c0 k]
        show (check_and_increment_rate_limit (counterBefore world c0 k)).1 =
          true
        rw [check_and_increment_grant_eq (counterBefore world c0 k) hgrant])
    rw [hres, iterCheck_pollCheck world c0 k]
    show (true, k + 1, k,
        (k + 1, (check_and_increment_rate_limit
          (counterBefore world c0 k)).2)) = _
    rw [check_and_increment_grant_eq (counterBefore world c0 k) hgrant]
  · unfold wait_for_rate_limit
    rw [waitLoop]
    simp [check_and_increment_rate_limit, if_pos hgrant1]

/-- A window that expires just before the third poll: the first two polls
    see the counter unchanged, later polls see it reset to 0 of 10. -/
def worldEx (j : Nat) (c : RateCounter) : RateCounter :=
  if j < 2 then c else ⟨0, 10⟩

/-- Witness for C7: an always-denying check with the default
    `max_wait = 120` makes 13 checks and 12 sleeps before the timeout
    failure; a counter at its limit 10 of 10 whose window expires before
    the third poll is denied twice, then granted on poll 2 (20 seconds in,
    before the 120-second bound) with one unit consumed; and a counter at
    0 of 10 grants on the very first check. -/
theorem wait_for_rate_limit_spec_witness :
    (∃ s', wait_for_rate_limit (fun u : Unit => (false, u)) 120 () =
        (false, 13, 12, s')) ∧
    wait_for_rate_limit (pollCheck worldEx) 120 (0, ⟨10, 10⟩) =
      (true, 3, 2, (3, ⟨1, 10⟩)) ∧
    wait_for_rate_limit check_and_increment_rate_limit 120 ⟨0, 10⟩ =
      (true, 1, 0, ⟨1, 10⟩) := by
  have h := wait_for_rate_limit_spec (fun u : Unit => (false, u)) () 120
    worldEx ⟨10, 10⟩ ⟨0, 10⟩ 2
  refine ⟨h.1 (by decide) (fun _ => rfl), ?_, h.2.2 (by decide)⟩
  have h2 := h.2.1 (by decide) (by decide) (by decide)
  exact h2

/-! ## The per-video pipeline (`process_video`) and batch mode

The pipeline's observable actions are recorded in an event trace; the
external world (rate-limit grants, downloader and transcoder outcomes, the
remote analysis result, the clock, an injected database failure) is an
explicit oracle `PEnv`.  Only the selection-by-id path of `process_video`
is embedded (the URL path differs only in how the row is looked up). -/

inductive Ev where
  | rateLimit (api : String)
  | download (url : String) (dest : FsPath)
  | analyze (video : FsPath)
  | ffmpeg (video : FsPath) (ts : Nat) (out : FsPath)
  | unlink (p : FsPath)
  | jobStart (video_id : Nat)
  | errorReported (video_id : Nat)
  | pause
deriving DecidableEq, Repr

structure PState where
  db : DB
  files : List FsPath
  trace : List Ev
deriving DecidableEq, Repr

/-- The oracle for one `process_video` run: whether `wait_for_rate_limit`
    returns (true) or raises (false) for each resource name, whether the
    downloader leaves the output file, the outcome of
    `analyze_video_with_gemini` (upload/processing failures raise), whether
    the transcoder leaves each frame file, the injected failing statement
    inside `save_analysis_to_db`, and the clock. -/
structure PEnv where
  rateOk : String → Bool
  downloadOk : Bool
  analysisResult : Except Unit Analysis
  extractOk : FsPath → Nat → Bool
  saveFailAt : Option Nat
  now : Nat

def addFile (st : PState) (p : FsPath) : PState :=
  if p ∈ st.files then st else { st with files := st.files ++ [p] }

/-- `extract_frame`: run ffmpeg (bounded by a 30s timeout; any exception is
    caught) and report whether the output file exists.  `env.extractOk`
    decides whether the invocation produced the output image. -/
def extract_frame (env : PEnv) (videoPath : FsPath) (ts : Nat)
    (outPath : FsPath) (st : PState) : Bool × PState :=
  let ok := env.extractOk videoPath ts
  let st' : PState := ⟨st.db, st.files, st.trace ++ [Ev.ffmpeg videoPath ts outPath]⟩
  (ok, if ok then addFile st' outPath else st')

/-- Python dict assignment on the `results` dict of `extract_frames_batch`. -/
def dictInsertNat (d : List (Nat × FsPath)) (k : Nat) (v : FsPath) :
    List (Nat × FsPath) :=
  if d.any (fun p => p.1 == k) then
    d.map (fun p => if p.1 == k then (k, v) else p)
  else d ++ [(k, v)]

def dictGetNat (d : List (Nat × FsPath)) (k : Nat) : Option FsPath :=
  (d.find? (fun p => p.1 == k)).map (fun p => p.2)

def extractBatchGo (env : PEnv) (videoPath : FsPath) (outputDir : FDir) :
    List Nat → List (Nat × FsPath) → PState → List (Nat × FsPath) × PState
  | [], acc, st => (acc, st)
  | ts :: rest, acc, st =>
      let fp := framePathIn outputDir ts
      let r := extract_frame env videoPath ts fp st
      let acc' := if r.1 then dictInsertNat acc ts fp else acc
      extractBatchGo env videoPath outputDir rest acc' r.2

/-- `extract_frames_batch`: extract one frame per timestamp into
    `output_dir`, collecting `results[ts] = frame_path` for the successful
    ones and only logging the failed ones. -/
def extract_frames_batch (env : PEnv) (videoPath : FsPath)
    (timestamps : List Nat) (outputDir : FDir) (st : PState) :
    List (Nat × FsPath) × PState :=
  extractBatchGo env videoPath outputDir timestamps [] st

/-- The `UPDATE video_moments SET frame_path = ... WHERE video_id = ... AND
    timestamp_seconds = ...` loop over the extracted dict. -/
def updateFramePaths (vid : Nat) :
    List (Nat × FsPath) → List MomentRow → List MomentRow
  | [], t => t
  | (ts, p) :: rest, t =>
      updateFramePaths vid rest
        (t.map (fun r =>
          if r.video_id == vid && r.timestamp_seconds == ts then
            { r with frame_path := some p }
          else r))

/-- `UPDATE videos SET frames_status = 'completed' WHERE id = %s` -/
def setFramesCompleted (vs : List VideoRow) (video_id : Nat) : List VideoRow :=
  vs.map (fun v =>
    if v.id == video_id then { v with frames_status := "completed" } else v)

/-- Step 4 of `process_video`: `if moments:` extract frames for every key
    moment's timestamp and, in a second database block, persist each
    extracted frame path and mark `frames_status` completed. -/
def framesStage (env : PEnv) (video_id : Nat) (videoPath : FsPath)
    (moments : List KeyMoment) (st : PState) : PState :=
  if moments.isEmpty then st
  else
    let timestamps := moments.map (fun m => m.timestamp_seconds)
    let r := extract_frames_batch env videoPath timestamps
      (framesDir video_id) st
    ⟨⟨setFramesCompleted r.2.db.videos video_id, r.2.db.video_analysis,
       updateFramePaths video_id r.1 r.2.db.video_moments⟩,
     r.2.files, r.2.trace⟩

/-- Step 5 of `process_video`: `if video_path.exists(): video_path.unlink()`. -/
def cleanupStage (videoPath : FsPath) (st : PState) : PState :=
  if videoPath ∈ st.files then
    ⟨st.db, st.files.erase videoPath, st.trace ++ [Ev.unlink videoPath]⟩
  else st

/-- A raised exception in a stage propagates out of `process_video`, with
    the world as it was at the raise. -/
def stepA (x : Except Unit Analysis) (fallback : PState)
    (k : Analysis → Except Unit Analysis × PState) :
    Except Unit Analysis × PState :=
  match x with
  | .error e => (.error e, fallback)
  | .ok a => k a

@[simp] theorem stepA_ok (a : Analysis) (fallback : PState)
    (k : Analysis → Except Unit Analysis × PState) :
    stepA (.ok a) fallback k = k a := rfl

@[simp] theorem stepA_error (e : Unit) (fallback : PState)
    (k : Analysis → Except Unit Analysis × PState) :
    stepA (.error e) fallback k = (.error e, fallback) := rfl

def stepDB (x : Except Unit DB) (fallback : PState)
    (k : DB → Except Unit Analysis × PState) :
    Except Unit Analysis × PState :=
  match x with
  | .error _ => (.error (), fallback)
  | .ok db' => k db'

@[simp] theorem stepDB_ok (db' : DB) (fallback : PState)
    (k : DB → Except Unit Analysis × PState) :
    stepDB (.ok db') fallback k = k db' := rfl

@[simp] theorem stepDB_error (e : Unit) (fallback : PState)
    (k : DB → Except Unit Analysis × PState) :
    stepDB (.error e) fallback k = (.error (), fallback) := rfl

/-- Steps 2-5 of `process_video`, after the local video file is ensured:
    rate-limited Gemini analysis, transactional save, frame extraction,
    cleanup.  A failing `wait_for_rate_limit`, a failing analysis, or a
    failing save raises out of the run (with the save rolled back). -/
def afterDownload (env : PEnv) (video_id : Nat) (videoPath : FsPath)
    (st : PState) : Except Unit Analysis × PState :=
  if env.rateOk "gemini_flash" then
    let tr := st.trace ++ [Ev.rateLimit "gemini_flash", Ev.analyze videoPath]
    stepA env.analysisResult ⟨st.db, st.files, tr⟩ (fun analysis =>
      stepDB (saveAnalysisBody env.saveFailAt video_id analysis env.now st.db)
        ⟨st.db, st.files, tr⟩ (fun db' =>
          (.ok analysis, cleanupStage videoPath
            (framesStage env video_id videoPath analysis.key_moments
              ⟨db', st.files, tr⟩))))
  else (.error (), st)

/-- `process_video` (selection by id): look the video up, download unless
    `skip_download` is set and the local file already exists, then run the
    remaining stages.  The result is the returned analysis or the raised
    exception, together with the final world state. -/
def process_video (env : PEnv) (video_id : Nat) (skip_download : Bool)
    (st : PState) : Except Unit Analysis × PState :=
  match st.db.videos.find? (fun v => v.id == video_id) with
  | none => (.error (), st)
  | some video =>
      let videoPath := videoFilePath video.id
      if skip_download = true ∧ videoPath ∈ st.files then
        afterDownload env video.id videoPath st
      else if env.rateOk "youtube_data" then
        let st1 : PState := ⟨st.db, st.files,
          st.trace ++ [Ev.rateLimit "youtube_data", Ev.download video.url videoPath]⟩
        if env.downloadOk then
          afterDownload env video.id videoPath (addFile st1 videoPath)
        else (.error (), st1)
      else (.error (), st)

/-- The loop of `process_batch` over the already-selected pending job ids
    (the selection query — pending filter, optional source filter, recency
    order, limit — happens before the loop and is not modelled).  Each
    iteration prints the job header (`jobStart`), runs `process_video`,
    reports and swallows any exception (`errorReported`, then `continue`,
    which skips the pause), and otherwise sleeps 5 seconds unless this was
    the last item (`i < len(videos)` is exactly "the remaining list is
    non-empty").  `envs` gives the oracle for the job at each 1-based
    position. -/
def batchGo (envs : Nat → PEnv) : Nat → List Nat → PState → PState
  | _, [], st => st
  | i, vid :: rest, st =>
      let st1 : PState := ⟨st.db, st.files, st.trace ++ [Ev.jobStart vid]⟩
      let r := process_video (envs i) vid false st1
      match r.1 with
      | .error _ => batchGo envs (i + 1) rest
          ⟨r.2.db, r.2.files, r.2.trace ++ [Ev.errorReported vid]⟩
      | .ok _ =>
          batchGo envs (i + 1) rest
            (if rest.isEmpty then r.2
             else ⟨r.2.db, r.2.files, r.2.trace ++ [Ev.pause]⟩)

def process_batch (envs : Nat → PEnv) (jobs : List Nat) (st : PState) : PState :=
  batchGo envs 1 jobs st

/-! ## Per-timestamp independence of `extract_frames_batch` (C6) -/

theorem dictGetNat_cons (hd : Nat × FsPath) (tl : List (Nat × FsPath))
    (k' : Nat) :
    dictGetNat (hd :: tl) k' =
      if (hd.1 == k') = true then some hd.2 else dictGetNat tl k' := by
  by_cases h : (hd.1 == k') = true
  · rw [if_pos h]
    unfold dictGetNat
    rw [@List.find?_cons_of_pos (Nat × FsPath) (fun p => p.1 == k') hd tl h]
    rfl
  · rw [if_neg h]
    unfold dictGetNat
    rw [@List.find?_cons_of_neg (Nat × FsPath) (fun p => p.1 == k') hd tl h]

theorem dictGetNat_eq_none (k' : Nat) :
    ∀ d : List (Nat × FsPath), (d.any fun p => p.1 == k') = false →
    dictGetNat d k' = none
  | [], _ => rfl
  | hd :: d, h => by
      simp only [List.any_cons, Bool.or_eq_false_iff] at h
      rw [dictGetNat_cons, if_neg (by rw [h.1]; exact Bool.false_ne_true)]
      exact dictGetNat_eq_none k' d h.2

theorem dictGetNat_append_of_none (k : Nat) (v : FsPath) (k' : Nat) :
    ∀ d : List (Nat × FsPath), dictGetNat d k' = none →
    dictGetNat (d ++ [(k, v)]) k' = if (k == k') = true then some v else none
  | [], _ => by
      rw [List.nil_append, dictGetNat_cons]
      rfl
  | hd :: d, h => by
      rw [dictGetNat_cons] at h
      by_cases hh : (hd.1 == k') = true
      · rw [if_pos hh] at h
        exact absurd h (by simp)
      · rw [if_neg hh] at h
        rw [List.cons_append, dictGetNat_cons, if_neg hh]
        exact dictGetNat_append_of_none k v k' d h

theorem dictGetNat_append_of_some (k : Nat) (v : FsPath) (k' : Nat)
    (q : FsPath) :
    ∀ d : List (Nat × FsPath), dictGetNat d k' = some q →
    dictGetNat (d ++ [(k, v)]) k' = some q
  | [], h => by simp [dictGetNat] at h
  | hd :: d, h => by
      rw [dictGetNat_cons] at h
      by_cases hh : (hd.1 == k') = true
      · rw [if_pos hh] at h
        rw [List.cons_append, dictGetNat_cons, if_pos hh]
        exact h
      · rw [if_neg hh] at h
        rw [List.cons_append, dictGetNat_cons, if_neg hh]
        exact dictGetNat_append_of_some k v k' q d h

theorem dictGetNat_map_update (k : Nat) (v : FsPath) (k' : Nat) (h : k' ≠ k) :
    ∀ tl : List (Nat × FsPath),
    dictGetNat (tl.map (fun p => if p.1 == k then (k, v) else p)) k' =
      dictGetNat tl k'
  | [] => rfl
  | hd :: tl => by
      have ih := dictGetNat_map_update k v k' h tl
      have hkk' : ¬(((k, v) : Nat × FsPath).1 == k') = true := by
        simp only [beq_iff_eq]
        exact fun he => h he.symm
      by_cases hhd : (hd.1 == k) = true
      · have hk : hd.1 = k := by simpa using hhd
        have hh' : ¬(hd.1 == k') = true := by
          simp only [beq_iff_eq, hk]
          exact fun he => h he.symm
        simp only [List.map_cons, if_pos hhd, dictGetNat_cons, if_neg hkk',
          if_neg hh']
        exact ih
      · simp only [List.map_cons, if_neg hhd, dictGetNat_cons]
        by_cases hh' : (hd.1 == k') = true
        · rw [if_pos hh', if_pos hh']
        · rw [if_neg hh', if_neg hh']
          exact ih

theorem dictGetNat_map_update_self (k : Nat) (v : FsPath) :
    ∀ tl : List (Nat × FsPath),
    (tl.any fun p => p.1 == k) = true →
    dictGetNat (tl.map (fun p => if p.1 == k then (k, v) else p)) k = some v
  | [], h => by simp at h
  | hd :: tl, h => by
      by_cases hhd : (hd.1 == k) = true
      · simp only [List.map_cons, if_pos hhd, dictGetNat_cons]
        rw [if_pos (by simp)]
      · simp only [List.any_cons, hhd, Bool.false_or] at h
        simp only [List.map_cons, if_neg hhd, dictGetNat_cons, if_neg hhd]
        exact dictGetNat_map_update_self k v tl h

theorem dictGetNat_insert (d : List (Nat × FsPath)) (k : Nat) (v : FsPath)
    (k' : Nat) :
    dictGetNat (dictInsertNat d k v) k' =
      if k' = k then some v else dictGetNat d k' := by
  by_cases hmem : (d.any fun p => p.1 == k) = true
  · rw [dictInsertNat, if_pos hmem]
    by_cases hk : k' = k
    · subst hk
      rw [if_pos rfl]
      exact dictGetNat_map_update_self k' v d hmem
    · rw [if_neg hk]
      exact dictGetNat_map_update k v k' hk d
  · rw [dictInsertNat, if_neg hmem]
    by_cases hk : k' = k
    · subst hk
      rw [dictGetNat_append_of_none k' v k' d
        (dictGetNat_eq_none k' d (eq_false_of_ne_true hmem))]
      simp
    · rw [if_neg hk]
      cases hq : dictGetNat d k' with
      | some q => exact dictGetNat_append_of_some k v k' q d hq
      | none =>
          rw [dictGetNat_append_of_none k v k' d hq]
          rw [if_neg (by simp only [beq_iff_eq]; exact fun he => hk he.symm)]

theorem extractBatchGo_get (env : PEnv) (vp : FsPath) (dir : FDir) :
    ∀ (tss : List Nat) (acc : List (Nat × FsPath)) (st : PState)
      (hacc : ∀ ts p, dictGetNat acc ts = some p → p = framePathIn dir ts)
      (ts : Nat) (p : FsPath),
    dictGetNat (extractBatchGo env vp dir tss acc st).1 ts = some p ↔
      (p = framePathIn dir ts ∧
        ((ts ∈ tss ∧ env.extractOk vp ts = true) ∨
          (dictGetNat acc ts).isSome = true))
  | [], acc, st, hacc, ts, p => by
      simp only [extractBatchGo, List.not_mem_nil, false_and, false_or]
      constructor
      · intro h
        exact ⟨hacc ts p h, by rw [h]; rfl⟩
      · rintro ⟨hp, hsome⟩
        cases hq : dictGetNat acc ts with
        | none => rw [hq] at hsome; simp at hsome
        | some q => exact congrArg some ((hacc ts q hq).trans hp.symm)
  | t :: rest, acc, st, hacc, ts, p => by
      simp only [extractBatchGo, extract_frame]
      by_cases hok : env.extractOk vp t = true
      · rw [if_pos hok]
        have hacc' : ∀ ts p,
            dictGetNat (dictInsertNat acc t (framePathIn dir t)) ts = some p →
            p = framePathIn dir ts := by
          intro ts' p' h'
          rw [dictGetNat_insert] at h'
          by_cases he : ts' = t
          · rw [if_pos he] at h'
            subst he
            exact (Option.some.inj h').symm
          · rw [if_neg he] at h'
            exact hacc ts' p' h'
        rw [extractBatchGo_get env vp dir rest _ _ hacc' ts p]
        constructor
        · rintro ⟨hp, hrest⟩
          refine ⟨hp, ?_⟩
          rcases hrest with ⟨hmem, hok'⟩ | hsome
          · exact Or.inl ⟨List.mem_cons_of_mem t hmem, hok'⟩
          · rw [dictGetNat_insert] at hsome
            by_cases he : ts = t
            · subst he
              exact Or.inl ⟨List.mem_cons_self ts rest, hok⟩
            · rw [if_neg he] at hsome
              exact Or.inr hsome
        · rintro ⟨hp, hrest⟩
          refine ⟨hp, ?_⟩
          rcases hrest with ⟨hmem, hok'⟩ | hsome
          · rcases List.mem_cons.mp hmem with he | hmem'
            · subst he
              refine Or.inr ?_
              rw [dictGetNat_insert, if_pos rfl]
              rfl
            · exact Or.inl ⟨hmem', hok'⟩
          · refine Or.inr ?_
            rw [dictGetNat_insert]
            by_cases he : ts = t
            · rw [if_pos he]; rfl
            · rw [if_neg he]; exact hsome
      · rw [if_neg hok]
        rw [extractBatchGo_get env vp dir rest _ _ hacc ts p]
        constructor
        · rintro ⟨hp, hrest⟩
          refine ⟨hp, ?_⟩
          rcases hrest with ⟨hmem, hok'⟩ | hsome
          · exact Or.inl ⟨List.mem_cons_of_mem t hmem, hok'⟩
          · exact Or.inr hsome
        · rintro ⟨hp, hrest⟩
          refine ⟨hp, ?_⟩
          rcases hrest with ⟨hmem, hok'⟩ | hsome
          · rcases List.mem_cons.mp hmem with he | hmem'
            · subst he
              exact absurd hok' hok
            · exact Or.inl ⟨hmem', hok'⟩
          · exact Or.inr hsome

/-- C6: `extract_frames_batch` never fails the batch on an individual
    timestamp (it is a total function of the per-timestamp transcoder
    outcomes, including out-of-range seeks and per-call timeouts, which
    `extract_frame` catches): for every transcoder behaviour, video path and
    timestamp list, its result maps exactly the timestamps whose extraction
    produced an output image, each to the deterministic path
    `output_dir / frame_<ts:05d>s.jpg`; in particular for timestamps
    `[0, 30, 99999]` where 0 and 30 succeed and 99999 is past the end of
    the video the result has entries for 0 and 30 and omits 99999. -/
theorem extract_frames_batch_independent (env : PEnv) (videoPath : FsPath)
    (timestamps : List Nat) (outputDir : FDir) (st : PState) (ts : Nat)
    (p : FsPath) :
    (dictGetNat (extract_frames_batch env videoPath timestamps outputDir st).1
        ts = some p ↔
      (ts ∈ timestamps ∧ env.extractOk videoPath ts = true ∧
        p = framePathIn outputDir ts)) ∧
    (env.extractOk videoPath 0 = true → env.extractOk videoPath 30 = true →
      env.extractOk videoPath 99999 = false →
      (extract_frames_batch env videoPath [0, 30, 99999] outputDir st).1 =
        [(0, framePathIn outputDir 0), (30, framePathIn outputDir 30)]) := by
  constructor
  · rw [extract_frames_batch,
      extractBatchGo_get env videoPath outputDir timestamps []
        st (fun ts p h => by simp [dictGetNat] at h) ts p]
    constructor
    · rintro ⟨hp, h2⟩
      rcases h2 with ⟨hmem, hok⟩ | hsome
      · exact ⟨hmem, hok, hp⟩
      · exfalso
        simp [dictGetNat] at hsome
    · rintro ⟨hmem, hok, hp⟩
      exact ⟨hp, Or.inl ⟨hmem, hok⟩⟩
  · intro h0 h30 h99999
    simp [extract_frames_batch, extractBatchGo, extract_frame, dictInsertNat,
      h0, h30, h99999]

def envEx : PEnv :=
  { rateOk := fun _ => true, downloadOk := true, analysisResult := .ok aEx,
    extractOk := fun _ ts => decide (ts < 90), saveFailAt := none, now := 7 }

def stEx : PState := { db := dbEx, files := [], trace := [] }

/-- Witness for C6 on the claim's example: timestamps `[0, 30, 99999]` where
    99999 fails, yielding entries for 0 and 30 only. -/
theorem extract_frames_batch_independent_witness :
    (extract_frames_batch envEx (videoFilePath 1) [0, 30, 99999]
        (framesDir 1) stEx).1 =
      [(0, framePathIn (framesDir 1) 0), (30, framePathIn (framesDir 1) 30)] :=
  (extract_frames_batch_independent envEx (videoFilePath 1) [0, 30, 99999]
    (framesDir 1) stEx 0 (framePathIn (framesDir 1) 0)).2 rfl rfl rfl

/-! ## State-evolution lemmas for the pipeline stages -/

theorem addFile_db (st : PState) (p : FsPath) : (addFile st p).db = st.db := by
  unfold addFile
  split <;> rfl

theorem addFile_trace (st : PState) (p : FsPath) :
    (addFile st p).trace = st.trace := by
  unfold addFile
  split <;> rfl

theorem addFile_mem (st : PState) (p : FsPath) : p ∈ (addFile st p).files := by
  unfold addFile
  split
  · assumption
  · simp

theorem addFile_mono (st : PState) (p q : FsPath) (h : q ∈ st.files) :
    q ∈ (addFile st p).files := by
  unfold addFile
  split
  · exact h
  · simp [h]

theorem addFile_nodup (st : PState) (p : FsPath) (h : st.files.Nodup) :
    (addFile st p).files.Nodup := by
  unfold addFile
  split
  · exact h
  · simpa [List.nodup_append] using ⟨h, by assumption⟩

theorem extract_frame_trace (env : PEnv) (vp : FsPath) (ts : Nat)
    (out : FsPath) (st : PState) :
    (extract_frame env vp ts out st).2.trace =
      st.trace ++ [Ev.ffmpeg vp ts out] := by
  simp only [extract_frame]
  split
  · rw [addFile_trace]
  · rfl

theorem extract_frame_db (env : PEnv) (vp : FsPath) (ts : Nat) (out : FsPath)
    (st : PState) : (extract_frame env vp ts out st).2.db = st.db := by
  simp only [extract_frame]
  split
  · rw [addFile_db]
  · rfl

theorem extract_frame_files_mono (env : PEnv) (vp : FsPath) (ts : Nat)
    (out : FsPath) (st : PState) (q : FsPath) (h : q ∈ st.files) :
    q ∈ (extract_frame env vp ts out st).2.files := by
  simp only [extract_frame]
  split
  · exact addFile_mono _ _ _ h
  · exact h

theorem extract_frame_files_ok (env : PEnv) (vp : FsPath) (ts : Nat)
    (out : FsPath) (st : PState) (h : env.extractOk vp ts = true) :
    out ∈ (extract_frame env vp ts out st).2.files := by
  simp only [extract_frame]
  rw [if_pos h]
  exact addFile_mem _ _

theorem extract_frame_files_nodup (env : PEnv) (vp : FsPath) (ts : Nat)
    (out : FsPath) (st : PState) (h : st.files.Nodup) :
    (extract_frame env vp ts out st).2.files.Nodup := by
  simp only [extract_frame]
  split
  · exact addFile_nodup _ _ h
  · exact h

theorem extractBatchGo_db (env : PEnv) (vp : FsPath) (dir : FDir) :
    ∀ (tss : List Nat) (acc : List (Nat × FsPath)) (st : PState),
    (extractBatchGo env vp dir tss acc st).2.db = st.db
  | [], _, _ => rfl
  | t :: rest, acc, st => by
      rw [extractBatchGo]
      rw [extractBatchGo_db env vp dir rest _ _, extract_frame_db]

theorem extractBatchGo_trace (env : PEnv) (vp : FsPath) (dir : FDir) :
    ∀ (tss : List Nat) (acc : List (Nat × FsPath)) (st : PState),
    ∃ ex : List Ev, (extractBatchGo env vp dir tss acc st).2.trace =
        st.trace ++ ex ∧
      ∀ e ∈ ex, ∃ ts out, e = Ev.ffmpeg vp ts out
  | [], _, st => ⟨[], by simp [extractBatchGo], by simp⟩
  | t :: rest, acc, st => by
      obtain ⟨ex, hex, hall⟩ := extractBatchGo_trace env vp dir rest
        (if (extract_frame env vp t (framePathIn dir t) st).1 then
          dictInsertNat acc t (framePathIn dir t) else acc)
        (extract_frame env vp t (framePathIn dir t) st).2
      refine ⟨Ev.ffmpeg vp t (framePathIn dir t) :: ex, ?_, ?_⟩
      · rw [extractBatchGo, hex, extract_frame_trace]
        simp
      · intro e he
        rcases List.mem_cons.mp he with he | he
        · exact ⟨t, framePathIn dir t, he⟩
        · exact hall e he

theorem extractBatchGo_files_mono (env : PEnv) (vp : FsPath) (dir : FDir) :
    ∀ (tss : List Nat) (acc : List (Nat × FsPath)) (st : PState) (q : FsPath),
    q ∈ st.files → q ∈ (extractBatchGo env vp dir tss acc st).2.files
  | [], _, _, _, h => h
  | t :: rest, acc, st, q, h => by
      rw [extractBatchGo]
      exact extractBatchGo_files_mono env vp dir rest _ _ q
        (extract_frame_files_mono env vp t (framePathIn dir t) st q h)

theorem extractBatchGo_files_ok (env : PEnv) (vp : FsPath) (dir : FDir) :
    ∀ (tss : List Nat) (acc : List (Nat × FsPath)) (st : PState) (ts : Nat),
    ts ∈ tss → env.extractOk vp ts = true →
    framePathIn dir ts ∈ (extractBatchGo env vp dir tss acc st).2.files
  | [], _, _, _, h, _ => absurd h (List.not_mem_nil _)
  | t :: rest, acc, st, ts, h, hok => by
      rw [extractBatchGo]
      rcases List.mem_cons.mp h with he | hmem
      · subst he
        exact extractBatchGo_files_mono env vp dir rest _ _ _
          (extract_frame_files_ok env vp ts (framePathIn dir ts) st hok)
      · exact extractBatchGo_files_ok env vp dir rest _ _ ts hmem hok

theorem extractBatchGo_files_nodup (env : PEnv) (vp : FsPath) (dir : FDir) :
    ∀ (tss : List Nat) (acc : List (Nat × FsPath)) (st : PState),
    st.files.Nodup → (extractBatchGo env vp dir tss acc st).2.files.Nodup
  | [], _, _, h => h
  | t :: rest, acc, st, h => by
      rw [extractBatchGo]
      exact extractBatchGo_files_nodup env vp dir rest _ _
        (extract_frame_files_nodup env vp t (framePathIn dir t) st h)

theorem framesStage_nil (env : PEnv) (vid : Nat) (vp : FsPath) (st : PState) :
    framesStage env vid vp [] st = st := rfl

theorem framesStage_trace (env : PEnv) (vid : Nat) (vp : FsPath)
    (moments : List KeyMoment) (st : PState) :
    ∃ ex : List Ev, (framesStage env vid vp moments st).trace = st.trace ++ ex ∧
      ∀ e ∈ ex, ∃ ts out, e = Ev.ffmpeg vp ts out := by
  unfold framesStage
  split
  · exact ⟨[], by simp, by simp⟩
  · obtain ⟨ex, hex, hall⟩ := extractBatchGo_trace env vp (framesDir vid)
      (moments.map (fun m => m.timestamp_seconds)) [] st
    exact ⟨ex, hex, hall⟩

theorem cleanupStage_db (vp : FsPath) (st : PState) :
    (cleanupStage vp st).db = st.db := by
  unfold cleanupStage
  split <;> rfl

theorem cleanupStage_trace (vp : FsPath) (st : PState) :
    ∃ ex : List Ev, (cleanupStage vp st).trace = st.trace ++ ex ∧
      ∀ e ∈ ex, e = Ev.unlink vp := by
  by_cases hm : vp ∈ st.files
  · rw [cleanupStage, if_pos hm]
    exact ⟨[Ev.unlink vp], rfl, by simp⟩
  · rw [cleanupStage, if_neg hm]
    exact ⟨[], by simp, by simp⟩

theorem cleanupStage_removes (vp : FsPath) (st : PState)
    (h : st.files.Nodup) : vp ∉ (cleanupStage vp st).files := by
  by_cases hm : vp ∈ st.files
  · rw [cleanupStage, if_pos hm]
    exact h.not_mem_erase
  · rw [cleanupStage, if_neg hm]
    exact hm

theorem cleanupStage_keeps (vp : FsPath) (st : PState) (q : FsPath)
    (h : q ∈ st.files) (hne : q ≠ vp) : q ∈ (cleanupStage vp st).files := by
  by_cases hm : vp ∈ st.files
  · rw [cleanupStage, if_pos hm]
    exact (List.mem_erase_of_ne hne).mpr h
  · rw [cleanupStage, if_neg hm]
    exact h

/-- Every event `afterDownload` appends is one of the analysis-stage events;
    when it returns successfully, the appended segment is non-empty. -/
theorem afterDownload_trace (env : PEnv) (vid : Nat) (vp : FsPath)
    (st : PState) :
    ∃ ex : List Ev, (afterDownload env vid vp st).2.trace = st.trace ++ ex ∧
      (∀ e ∈ ex, e = Ev.rateLimit "gemini_flash" ∨ e = Ev.analyze vp ∨
        (∃ ts out, e = Ev.ffmpeg vp ts out) ∨ e = Ev.unlink vp) ∧
      (∀ a, (afterDownload env vid vp st).1 = .ok a → ex ≠ []) := by
  simp only [afterDownload]
  by_cases hrl : env.rateOk "gemini_flash" = true
  · rw [if_pos hrl]
    cases har : env.analysisResult with
    | error e =>
        simp only [stepA_error]
        exact ⟨[Ev.rateLimit "gemini_flash", Ev.analyze vp], rfl, by simp,
          fun a ha => by simp at ha⟩
    | ok analysis =>
        simp only [stepA_ok]
        cases hsv : saveAnalysisBody env.saveFailAt vid analysis env.now st.db with
        | error e =>
            simp only [stepDB_error]
            exact ⟨[Ev.rateLimit "gemini_flash", Ev.analyze vp], rfl, by simp,
              fun a ha => by simp at ha⟩
        | ok db' =>
            simp only [stepDB_ok]
            obtain ⟨ex2, hex2, hall2⟩ := framesStage_trace env vid vp
              analysis.key_moments
              ⟨db', st.files,
                st.trace ++ [Ev.rateLimit "gemini_flash", Ev.analyze vp]⟩
            obtain ⟨ex3, hex3, hall3⟩ := cleanupStage_trace vp
              (framesStage env vid vp analysis.key_moments
                ⟨db', st.files,
                  st.trace ++ [Ev.rateLimit "gemini_flash", Ev.analyze vp]⟩)
            refine ⟨Ev.rateLimit "gemini_flash" :: Ev.analyze vp :: (ex2 ++ ex3),
              ?_, ?_, ?_⟩
            · show (cleanupStage vp (framesStage env vid vp analysis.key_moments
                ⟨db', st.files,
                  st.trace ++ [Ev.rateLimit "gemini_flash", Ev.analyze vp]⟩)).trace = _
              rw [hex3, hex2]
              simp
            · intro e he
              rcases List.mem_cons.mp he with he | he
              · exact Or.inl he
              rcases List.mem_cons.mp he with he | he
              · exact Or.inr (Or.inl he)
              rcases List.mem_append.mp he with he | he
              · exact Or.inr (Or.inr (Or.inl (hall2 e he)))
              · exact Or.inr (Or.inr (Or.inr (hall3 e he)))
            · intro a _
              simp
  · rw [if_neg hrl]
    exact ⟨[], by simp, by simp, fun a ha => by simp at ha⟩

/-- Reduction of `process_video` once the video row is found. -/
theorem process_video_eq_of_find (env : PEnv) (vid : Nat) (skip : Bool)
    (st : PState) (video : VideoRow)
    (hfind : st.db.videos.find? (fun v => v.id == vid) = some video) :
    process_video env vid skip st =
      if skip = true ∧ videoFilePath video.id ∈ st.files then
        afterDownload env video.id (videoFilePath video.id) st
      else if env.rateOk "youtube_data" = true then
        (if env.downloadOk then
          afterDownload env video.id (videoFilePath video.id)
            (addFile ⟨st.db, st.files, st.trace ++
                [Ev.rateLimit "youtube_data",
                 Ev.download video.url (videoFilePath video.id)]⟩
              (videoFilePath video.id))
        else (.error (), ⟨st.db, st.files, st.trace ++
          [Ev.rateLimit "youtube_data",
           Ev.download video.url (videoFilePath video.id)]⟩))
      else (.error (), st) := by
  unfold process_video
  rw [hfind]

theorem process_video_eq_of_none (env : PEnv) (vid : Nat) (skip : Bool)
    (st : PState)
    (hfind : st.db.videos.find? (fun v => v.id == vid) = none) :
    process_video env vid skip st = (.error (), st) := by
  unfold process_video
  rw [hfind]

/-- What a successful `afterDownload` run consists of. -/
theorem afterDownload_ok_cases (env : PEnv) (vid : Nat) (vp : FsPath)
    (st : PState) (a : Analysis)
    (hok : (afterDownload env vid vp st).1 = .ok a) :
    env.rateOk "gemini_flash" = true ∧
    env.analysisResult = .ok a ∧
    ∃ db', saveAnalysisBody env.saveFailAt vid a env.now st.db = .ok db' ∧
      (afterDownload env vid vp st).2 =
        cleanupStage vp (framesStage env vid vp a.key_moments
          ⟨db', st.files,
            st.trace ++ [Ev.rateLimit "gemini_flash", Ev.analyze vp]⟩) := by
  by_cases hrl : env.rateOk "gemini_flash" = true
  · simp only [afterDownload, if_pos hrl] at hok ⊢
    refine ⟨hrl, ?_⟩
    revert hok
    cases har : env.analysisResult with
    | error e =>
        intro hok
        simp at hok
    | ok analysis =>
        simp only [stepA_ok]
        cases hsv : saveAnalysisBody env.saveFailAt vid analysis env.now st.db with
        | error e =>
            intro hok
            simp at hok
        | ok db' =>
            simp only [stepDB_ok]
            intro hok
            have ha : analysis = a := by simpa using hok
            subst ha
            exact ⟨rfl, db', hsv, rfl⟩
  · rw [afterDownload, if_neg hrl] at hok
    simp at hok

/-- What a successful `process_video` run consists of: the video row was
    found, and the remaining stages ran from a state with the same database,
    the local video file present, and only download-stage events appended. -/
theorem process_video_ok_cases (env : PEnv) (vid : Nat) (skip : Bool)
    (st : PState) (a : Analysis)
    (hok : (process_video env vid skip st).1 = .ok a) :
    ∃ video st', st.db.videos.find? (fun v => v.id == vid) = some video ∧
      st'.db = st.db ∧
      (∃ ex, st'.trace = st.trace ++ ex ∧
        ∀ e ∈ ex, e = Ev.rateLimit "youtube_data" ∨
          e = Ev.download video.url (videoFilePath video.id)) ∧
      videoFilePath video.id ∈ st'.files ∧
      (st.files.Nodup → st'.files.Nodup) ∧
      (∀ q ∈ st.files, q ∈ st'.files) ∧
      process_video env vid skip st =
        afterDownload env video.id (videoFilePath video.id) st' := by
  cases hfind : st.db.videos.find? (fun v => v.id == vid) with
  | none =>
      rw [process_video_eq_of_none env vid skip st hfind] at hok
      simp at hok
  | some video =>
      have heq := process_video_eq_of_find env vid skip st video hfind
      rw [heq] at hok
      by_cases hskip : skip = true ∧ videoFilePath video.id ∈ st.files
      · rw [if_pos hskip] at hok
        refine ⟨video, st, rfl, rfl, ⟨[], by simp, by simp⟩, hskip.2,
          fun h => h, fun q hq => hq, ?_⟩
        rw [heq, if_pos hskip]
      · rw [if_neg hskip] at hok
        by_cases hrl : env.rateOk "youtube_data" = true
        · rw [if_pos hrl] at hok
          by_cases hdl : env.downloadOk = true
          · rw [if_pos hdl] at hok
            refine ⟨video,
              addFile ⟨st.db, st.files, st.trace ++
                [Ev.rateLimit "youtube_data",
                 Ev.download video.url (videoFilePath video.id)]⟩
                (videoFilePath video.id),
              rfl, addFile_db _ _, ?_, addFile_mem _ _,
              fun h => addFile_nodup _ _ h,
              fun q hq => addFile_mono _ _ _ hq, ?_⟩
            · refine ⟨[Ev.rateLimit "youtube_data",
                Ev.download video.url (videoFilePath video.id)],
                by rw [addFile_trace], ?_⟩
              intro e he
              rcases List.mem_cons.mp he with he | he
              · exact Or.inl he
              rcases List.mem_cons.mp he with he | he
              · exact Or.inr he
              · exact absurd he (List.not_mem_nil e)
            · rw [heq, if_neg hskip, if_pos hrl, if_pos hdl]
          · rw [if_neg hdl] at hok
            simp at hok
        · rw [if_neg hrl] at hok
          simp at hok

/-- C9: with `skip_download` set and the local video file already present,
    `process_video` neither invokes the downloader nor acquires a
    download-resource ("youtube_data") rate-limit token; the download stage
    runs exactly when `skip_download` is unset or the local file is absent
    (the downloader invocation is then observable whenever the download
    rate-limit token is granted). -/
theorem process_video_skip_download (env : PEnv) (video_id : Nat)
    (skip_download : Bool) (st : PState) (video : VideoRow)
    (hfind : st.db.videos.find? (fun v => v.id == video_id) = some video)
    (htrace : st.trace = []) :
    ((skip_download = true ∧ videoFilePath video.id ∈ st.files) →
      (∀ u p, Ev.download u p ∉
        (process_video env video_id skip_download st).2.trace) ∧
      Ev.rateLimit "youtube_data" ∉
        (process_video env video_id skip_download st).2.trace) ∧
    (¬(skip_download = true ∧ videoFilePath video.id ∈ st.files) →
      env.rateOk "youtube_data" = true →
      Ev.download video.url (videoFilePath video.id) ∈
        (process_video env video_id skip_download st).2.trace) := by
  rw [process_video_eq_of_find env video_id skip_download st video hfind]
  constructor
  · intro hskip
    rw [if_pos hskip]
    obtain ⟨ex, hex, hall, _⟩ := afterDownload_trace env video.id
      (videoFilePath video.id) st
    rw [hex, htrace, List.nil_append]
    constructor
    · intro u p hmem
      rcases hall _ hmem with h | h | ⟨ts, out, h⟩ | h <;> exact Ev.noConfusion h
    · intro hmem
      rcases hall _ hmem with h | h | ⟨ts, out, h⟩ | h
      · exact absurd (Ev.rateLimit.inj h) (by decide)
      · exact Ev.noConfusion h
      · exact Ev.noConfusion h
      · exact Ev.noConfusion h
  · intro hns hrl
    rw [if_neg hns, if_pos hrl]
    by_cases hdl : env.downloadOk = true
    · rw [if_pos hdl]
      obtain ⟨ex, hex, hall, _⟩ := afterDownload_trace env video.id
        (videoFilePath video.id)
        (addFile ⟨st.db, st.files, st.trace ++
          [Ev.rateLimit "youtube_data",
           Ev.download video.url (videoFilePath video.id)]⟩
          (videoFilePath video.id))
      rw [hex, addFile_trace]
      simp
    · rw [if_neg hdl]
      simp

/-- Witness for C9: with the file already downloaded and `skip_download`
    set, no download-resource token is acquired. -/
theorem process_video_skip_download_witness :
    Ev.rateLimit "youtube_data" ∉
      (process_video envEx 1 true ⟨dbEx, [videoFilePath 1], []⟩).2.trace :=
  ((process_video_skip_download envEx 1 true ⟨dbEx, [videoFilePath 1], []⟩
    vEx rfl rfl).1 ⟨rfl, by decide⟩).2

theorem saveAnalysisBody_ok_eq (failAt : Option Nat) (vid : Nat)
    (a : Analysis) (now : Nat) (db db' : DB)
    (h : saveAnalysisBody failAt vid a now db = .ok db') :
    db' = applyAnalysisWrites vid a now db := by
  rw [saveAnalysisBody_eq] at h
  by_cases hf : failsIn failAt 0 (2 + a.key_moments.length) = true
  · rw [if_pos hf] at h
    simp at h
  · rw [if_neg hf] at h
    exact (Except.ok.inj h).symm

theorem setAnalysisCompleted_frames_status (vs : List VideoRow)
    (vid now : Nat) :
    (setAnalysisCompleted vs vid now).map (fun v => v.frames_status) =
      vs.map (fun v => v.frames_status) := by
  unfold setAnalysisCompleted
  rw [List.map_map]
  apply List.map_congr_left
  intro v _
  by_cases h : (v.id == vid) = true <;> simp [h, Function.comp]

theorem setAnalysisCompleted_status (vs : List VideoRow) (vid now : Nat)
    (r : VideoRow) (hr : r ∈ setAnalysisCompleted vs vid now)
    (hid : r.id = vid) : r.analysis_status = "completed" := by
  unfold setAnalysisCompleted at hr
  obtain ⟨v, hv, hveq⟩ := List.mem_map.mp hr
  by_cases h : (v.id == vid) = true
  · rw [if_pos h] at hveq
    rw [← hveq]
  · rw [if_neg h] at hveq
    subst hveq
    exact absurd (beq_iff_eq.mpr hid) h

/-- C10: a successful `process_video` run whose analysis has zero key
    moments performs no frame extraction and never writes the video's
    `frames_status` field — every row keeps its prior value rather than
    being set to completed — even though the save sets the video's
    `analysis_status` to completed; the `frames_status = 'completed'` write
    happens only inside the non-empty-moments branch. -/
theorem process_video_zero_moments (env : PEnv) (video_id : Nat)
    (skip : Bool) (st : PState) (a : Analysis)
    (hok : (process_video env video_id skip st).1 = .ok a)
    (hmoments : a.key_moments = [])
    (htrace : st.trace = []) :
    ((process_video env video_id skip st).2.db.videos.map
        (fun v => v.frames_status) =
      st.db.videos.map (fun v => v.frames_status)) ∧
    (∀ vp ts out, Ev.ffmpeg vp ts out ∉
      (process_video env video_id skip st).2.trace) ∧
    (∀ r ∈ (process_video env video_id skip st).2.db.videos,
      r.id = video_id → r.analysis_status = "completed") := by
  obtain ⟨video, st', hfind, hdb, ⟨ex, hex, hexall⟩, hmem, hnd, hmono, heq⟩ :=
    process_video_ok_cases env video_id skip st a hok
  rw [heq] at hok ⊢
  obtain ⟨hrl, har, db', hsv, hst2⟩ :=
    afterDownload_ok_cases env video.id (videoFilePath video.id) st' a hok
  have hdb' : db' = applyAnalysisWrites video.id a env.now st'.db :=
    saveAnalysisBody_ok_eq _ _ _ _ _ _ hsv
  have hvid : video.id = video_id := by
    have := List.find?_some hfind
    simpa using this
  rw [hst2, hmoments, framesStage_nil]
  refine ⟨?_, ?_, ?_⟩
  · rw [cleanupStage_db]
    show db'.videos.map (fun v => v.frames_status) = _
    rw [hdb', hdb]
    show (setAnalysisCompleted st.db.videos video.id env.now).map
      (fun v => v.frames_status) = _
    exact setAnalysisCompleted_frames_status _ _ _
  · intro vp ts out hmemev
    obtain ⟨ex3, hex3, hall3⟩ := cleanupStage_trace (videoFilePath video.id)
      ⟨db', st'.files, st'.trace ++
        [Ev.rateLimit "gemini_flash", Ev.analyze (videoFilePath video.id)]⟩
    rw [hex3] at hmemev
    rcases List.mem_append.mp hmemev with h | h
    · rcases List.mem_append.mp h with h | h
      · rw [hex, htrace, List.nil_append] at h
        rcases hexall _ h with h | h <;> exact Ev.noConfusion h
      · rcases List.mem_cons.mp h with h | h
        · exact Ev.noConfusion h
        rcases List.mem_cons.mp h with h | h
        · exact Ev.noConfusion h
        · exact absurd h (List.not_mem_nil _)
    · exact Ev.noConfusion (hall3 _ h)
  · rw [cleanupStage_db]
    show ∀ r ∈ db'.videos, r.id = video_id → r.analysis_status = "completed"
    rw [hdb', hdb]
    intro r hr hid
    exact setAnalysisCompleted_status _ _ _ _ hr (hid.trans hvid.symm)

/-- Oracle for a concrete zero-moments success run. -/
def envEx0 : PEnv :=
  { rateOk := fun _ => true, downloadOk := true, analysisResult := .ok aEx2,
    extractOk := fun _ _ => false, saveFailAt := none, now := 7 }

/-- Witness for C10 on a concrete run: the `frames_status` column is left
    untouched. -/
theorem process_video_zero_moments_witness :
    (process_video envEx0 1 false stEx).2.db.videos.map
        (fun v => v.frames_status) =
      stEx.db.videos.map (fun v => v.frames_status) :=
  (process_video_zero_moments envEx0 1 false stEx aEx2 rfl rfl rfl).1

/-! ## Toolkit for C5: frame persistence in a completed run -/

theorem insertMoment_mono (t : List MomentRow) (m r : MomentRow) (h : r ∈ t) :
    r ∈ insertMoment t m := by
  unfold insertMoment
  split
  · exact h
  · exact List.mem_append_left _ h

theorem insertMoment_key_mem (t : List MomentRow) (m : MomentRow) :
    ∃ r ∈ insertMoment t m, r.video_id = m.video_id ∧
      r.timestamp_seconds = m.timestamp_seconds := by
  unfold insertMoment
  by_cases hc : (t.any fun r =>
      r.video_id == m.video_id && r.timestamp_seconds == m.timestamp_seconds) = true
  · rw [if_pos hc]
    obtain ⟨r, hr, hpred⟩ := List.any_eq_true.mp hc
    simp only [Bool.and_eq_true, beq_iff_eq] at hpred
    exact ⟨r, hr, hpred⟩
  · rw [if_neg hc]
    exact ⟨m, List.mem_append_right _ (List.mem_cons_self _ _), rfl, rfl⟩

theorem insertMoments_mono (vid : Nat) :
    ∀ (ms : List KeyMoment) (t : List MomentRow) (r : MomentRow),
    r ∈ t → r ∈ insertMoments t vid ms
  | [], _, _, h => h
  | _ :: rest, t, r, h =>
      insertMoments_mono vid rest _ r (insertMoment_mono t _ r h)

theorem insertMoments_key_mem (vid : Nat) :
    ∀ (ms : List KeyMoment) (t : List MomentRow) (m : KeyMoment), m ∈ ms →
    ∃ r ∈ insertMoments t vid ms, r.video_id = vid ∧
      r.timestamp_seconds = m.timestamp_seconds
  | [], _, _, h => absurd h (List.not_mem_nil _)
  | m0 :: rest, t, m, h => by
      rcases List.mem_cons.mp h with he | hm
      · subst he
        obtain ⟨r, hr, hk⟩ := insertMoment_key_mem t (momentRowOf vid m)
        exact ⟨r, insertMoments_mono vid rest _ r hr, hk.1, hk.2⟩
      · exact insertMoments_key_mem vid rest _ m hm

theorem dictInsertNat_keys_nodup (d : List (Nat × FsPath)) (k : Nat)
    (v : FsPath) (h : (d.map Prod.fst).Nodup) :
    ((dictInsertNat d k v).map Prod.fst).Nodup := by
  unfold dictInsertNat
  by_cases hc : (d.any fun p => p.1 == k) = true
  · rw [if_pos hc]
    have hmap : (d.map (fun p => if p.1 == k then (k, v) else p)).map Prod.fst =
        d.map Prod.fst := by
      rw [List.map_map]
      apply List.map_congr_left
      intro p _
      by_cases hpk : (p.1 == k) = true
      · simp only [Function.comp, if_pos hpk]
        exact (beq_iff_eq.mp hpk).symm
      · simp only [Function.comp, if_neg hpk]
    rw [hmap]
    exact h
  · rw [if_neg hc, List.map_append, List.nodup_append]
    refine ⟨h, List.nodup_singleton _, ?_⟩
    intro x hx hxk
    simp only [List.map_cons, List.map_nil, List.mem_singleton] at hxk
    subst hxk
    apply hc
    simp only [List.any_eq_true, beq_iff_eq]
    obtain ⟨q, hq, hq1⟩ := List.mem_map.mp hx
    exact ⟨q, hq, hq1⟩

theorem extractBatchGo_keys_nodup (env : PEnv) (vp : FsPath) (dir : FDir) :
    ∀ (tss : List Nat) (acc : List (Nat × FsPath)) (st : PState),
    (acc.map Prod.fst).Nodup →
    ((extractBatchGo env vp dir tss acc st).1.map Prod.fst).Nodup
  | [], _, _, h => h
  | t :: rest, acc, st, h => by
      rw [extractBatchGo]
      apply extractBatchGo_keys_nodup env vp dir rest _ _
      split
      · exact dictInsertNat_keys_nodup acc t _ h
      · exact h

theorem dictGetNat_mem (d : List (Nat × FsPath)) (k : Nat) (p : FsPath)
    (h : dictGetNat d k = some p) : (k, p) ∈ d := by
  unfold dictGetNat at h
  cases hf : d.find? (fun q => q.1 == k) with
  | none => rw [hf] at h; simp at h
  | some q =>
      rw [hf] at h
      have hq2 : q.2 = p := by simpa using h
      have hmem := List.mem_of_find?_eq_some hf
      have hk := List.find?_some hf
      simp only [beq_iff_eq] at hk
      have hqe : (k, p) = q := by
        cases q
        simp only at hk hq2
        simp [hk, hq2]
      rw [hqe]
      exact hmem

/-- The cumulative effect of the frame-path update loop on a single row. -/
def applyFrameUpdates (vid : Nat) (d : List (Nat × FsPath)) (r : MomentRow) :
    MomentRow :=
  d.foldl (fun r tp =>
    if r.video_id == vid && r.timestamp_seconds == tp.1 then
      { r with frame_path := some tp.2 }
    else r) r

theorem updateFramePaths_eq_map (vid : Nat) :
    ∀ (d : List (Nat × FsPath)) (t : List MomentRow),
    updateFramePaths vid d t = t.map (applyFrameUpdates vid d)
  | [], t => by
      show t = t.map (applyFrameUpdates vid [])
      symm
      rw [List.map_congr_left (fun r _ => (rfl : applyFrameUpdates vid [] r = r))]
      exact List.map_id' t
  | (ts, p) :: rest, t => by
      rw [updateFramePaths, updateFramePaths_eq_map vid rest, List.map_map]
      rfl

theorem applyFrameUpdates_key (vid : Nat) :
    ∀ (d : List (Nat × FsPath)) (r : MomentRow),
    (applyFrameUpdates vid d r).video_id = r.video_id ∧
    (applyFrameUpdates vid d r).timestamp_seconds = r.timestamp_seconds
  | [], r => ⟨rfl, rfl⟩
  | tp :: rest, r => by
      have ih := applyFrameUpdates_key vid rest
        (if r.video_id == vid && r.timestamp_seconds == tp.1 then
          { r with frame_path := some tp.2 } else r)
      have hstep :
          ((if r.video_id == vid && r.timestamp_seconds == tp.1 then
            { r with frame_path := some tp.2 } else r) : MomentRow).video_id =
              r.video_id ∧
          ((if r.video_id == vid && r.timestamp_seconds == tp.1 then
            { r with frame_path := some tp.2 } else r) : MomentRow).timestamp_seconds =
              r.timestamp_seconds := by
        split <;> exact ⟨rfl, rfl⟩
      exact ⟨ih.1.trans hstep.1, ih.2.trans hstep.2⟩

theorem applyFrameUpdates_notmem (vid : Nat) :
    ∀ (d : List (Nat × FsPath)) (r : MomentRow),
    r.timestamp_seconds ∉ d.map Prod.fst → applyFrameUpdates vid d r = r
  | [], _, _ => rfl
  | tp :: rest, r, h => by
      have h1 : r.timestamp_seconds ≠ tp.1 := fun he => h (by
        rw [List.map_cons, he]
        exact List.mem_cons_self _ _)
      have h2 : r.timestamp_seconds ∉ rest.map Prod.fst := fun hm => h (by
        rw [List.map_cons]
        exact List.mem_cons_of_mem _ hm)
      have hcond : (r.video_id == vid && r.timestamp_seconds == tp.1) = false := by
        simp [h1]
      show applyFrameUpdates vid rest
        (if r.video_id == vid && r.timestamp_seconds == tp.1 then
          { r with frame_path := some tp.2 } else r) = r
      rw [hcond]
      simp only [Bool.false_eq_true, if_false]
      exact applyFrameUpdates_notmem vid rest r h2

theorem applyFrameUpdates_sets (vid : Nat) :
    ∀ (d : List (Nat × FsPath)) (r : MomentRow) (ts : Nat) (p : FsPath),
    (ts, p) ∈ d → (d.map Prod.fst).Nodup →
    r.video_id = vid → r.timestamp_seconds = ts →
    (applyFrameUpdates vid d r).frame_path = some p
  | [], _, _, _, hmem, _, _, _ => absurd hmem (List.not_mem_nil _)
  | (ts0, p0) :: rest, r, ts, p, hmem, hnd, hv, ht => by
      have hnd' := hnd
      rw [List.map_cons, List.nodup_cons] at hnd'
      rcases List.mem_cons.mp hmem with he | hmem'
      · have hts : ts = ts0 := congrArg Prod.fst he
        have hp : p = p0 := congrArg Prod.snd he
        have hcond : (r.video_id == vid && r.timestamp_seconds == ts0) = true := by
          simp [hv, ht, hts]
        show (applyFrameUpdates vid rest
          (if r.video_id == vid && r.timestamp_seconds == ts0 then
            { r with frame_path := some p0 } else r)).frame_path = some p
        rw [hcond, if_pos rfl]
        rw [applyFrameUpdates_notmem vid rest _ (by
          show ({ r with frame_path := some p0 } : MomentRow).timestamp_seconds ∉ _
          show r.timestamp_seconds ∉ _
          rw [ht, hts]
          exact hnd'.1)]
        rw [hp]
      · have hkey := applyFrameUpdates_key vid [(ts0, p0)] r
        apply applyFrameUpdates_sets vid rest _ ts p hmem' hnd'.2
        · show ((if r.video_id == vid && r.timestamp_seconds == ts0 then
            { r with frame_path := some p0 } else r) : MomentRow).video_id = vid
          split
          · exact hv
          · exact hv
        · show ((if r.video_id == vid && r.timestamp_seconds == ts0 then
            { r with frame_path := some p0 } else r) : MomentRow).timestamp_seconds = ts
          split
          · exact ht
          · exact ht

theorem framePath_ne_videoPath (vid vid2 ts : Nat) :
    framePathIn (framesDir vid) ts ≠ videoFilePath vid2 := by
  intro h
  have harea : ("frames" : String) = "videos" :=
    congrArg (fun p => p.dir.area) h
  exact absurd harea (by decide)

theorem framesStage_nonempty (env : PEnv) (vid : Nat) (vp : FsPath)
    (moments : List KeyMoment) (st : PState) (h : moments ≠ []) :
    framesStage env vid vp moments st =
      ⟨⟨setFramesCompleted (extract_frames_batch env vp
            (moments.map (fun m => m.timestamp_seconds)) (framesDir vid) st).2.db.videos
          vid,
        (extract_frames_batch env vp
            (moments.map (fun m => m.timestamp_seconds)) (framesDir vid) st).2.db.video_analysis,
        updateFramePaths vid
          (extract_frames_batch env vp
            (moments.map (fun m => m.timestamp_seconds)) (framesDir vid) st).1
          (extract_frames_batch env vp
            (moments.map (fun m => m.timestamp_seconds)) (framesDir vid) st).2.db.video_moments⟩,
       (extract_frames_batch env vp
          (moments.map (fun m => m.timestamp_seconds)) (framesDir vid) st).2.files,
       (extract_frames_batch env vp
          (moments.map (fun m => m.timestamp_seconds)) (framesDir vid) st).2.trace⟩ := by
  unfold framesStage
  rw [if_neg (by simpa using h)]

theorem completed_row_mem (vs : List VideoRow) (video : VideoRow) (now : Nat)
    (hv : video ∈ vs) :
    ∃ r ∈ setFramesCompleted (setAnalysisCompleted vs video.id now) video.id,
      r.id = video.id ∧ r.frames_status = "completed" ∧
      r.analysis_status = "completed" := by
  refine ⟨{ video with
      analysis_status := "completed"
      updated_at := now
      frames_status := "completed" }, ?_, rfl, rfl, rfl⟩
  unfold setAnalysisCompleted setFramesCompleted
  rw [List.map_map]
  apply List.mem_map.mpr
  refine ⟨video, hv, ?_⟩
  simp [Function.comp]

/-- C5: a completed `process_video` run whose analysis has a non-empty
    key-moments list marks the video's `frames_status` completed no matter
    how many individual frame extractions failed, persists each
    successfully extracted frame's path on its moment row individually,
    deletes the local video file at the end, and retains the extracted
    frame images. -/
theorem process_video_frames_completed (env : PEnv) (video_id : Nat)
    (skip : Bool) (st : PState) (a : Analysis)
    (hok : (process_video env video_id skip st).1 = .ok a)
    (hmoments : a.key_moments ≠ [])
    (hnodup : st.files.Nodup) :
    (∃ r ∈ (process_video env video_id skip st).2.db.videos,
      r.id = video_id ∧ r.frames_status = "completed" ∧
      r.analysis_status = "completed") ∧
    videoFilePath video_id ∉ (process_video env video_id skip st).2.files ∧
    (∀ m ∈ a.key_moments,
      env.extractOk (videoFilePath video_id) m.timestamp_seconds = true →
      framePathIn (framesDir video_id) m.timestamp_seconds ∈
        (process_video env video_id skip st).2.files ∧
      ∃ r ∈ (process_video env video_id skip st).2.db.video_moments,
        r.video_id = video_id ∧ r.timestamp_seconds = m.timestamp_seconds ∧
        r.frame_path =
          some (framePathIn (framesDir video_id) m.timestamp_seconds)) := by
  obtain ⟨video, st', hfind, hdb, ⟨ex, hex, hexall⟩, hvmem, hnd, hmono, heq⟩ :=
    process_video_ok_cases env video_id skip st a hok
  rw [heq] at hok ⊢
  obtain ⟨hrl, har, db', hsv, hst2⟩ :=
    afterDownload_ok_cases env video.id (videoFilePath video.id) st' a hok
  have hdb' : db' = applyAnalysisWrites video.id a env.now st'.db :=
    saveAnalysisBody_ok_eq _ _ _ _ _ _ hsv
  rw [hdb] at hdb'
  have hvid : video.id = video_id := by
    have := List.find?_some hfind
    simpa using this
  subst hvid
  rw [hst2]
  set S : PState := ⟨db', st'.files,
    st'.trace ++ [Ev.rateLimit "gemini_flash",
      Ev.analyze (videoFilePath video.id)]⟩ with hS
  rw [framesStage_nonempty env video.id (videoFilePath video.id)
    a.key_moments S hmoments]
  set B := extract_frames_batch env (videoFilePath video.id)
    (a.key_moments.map (fun m => m.timestamp_seconds)) (framesDir video.id) S
    with hB
  have hBdb : B.2.db = db' := by
    rw [hB]
    exact extractBatchGo_db env _ _ _ _ _
  have hSfilesN : S.files.Nodup := hnd hnodup
  have hBfilesN : B.2.files.Nodup := by
    rw [hB]
    exact extractBatchGo_files_nodup env _ _ _ _ _ hSfilesN
  have hvmemB : videoFilePath video.id ∈ B.2.files := by
    rw [hB]
    exact extractBatchGo_files_mono env _ _ _ _ _ _ hvmem
  refine ⟨?_, ?_, ?_⟩
  · rw [cleanupStage_db]
    show ∃ r ∈ setFramesCompleted B.2.db.videos video.id,
      r.id = video.id ∧ r.frames_status = "completed" ∧
      r.analysis_status = "completed"
    rw [hBdb, hdb']
    show ∃ r ∈ setFramesCompleted
      (setAnalysisCompleted st.db.videos video.id env.now) video.id,
      r.id = video.id ∧ r.frames_status = "completed" ∧
      r.analysis_status = "completed"
    exact completed_row_mem st.db.videos video env.now
      (List.mem_of_find?_eq_some hfind)
  · exact cleanupStage_removes _ _ hBfilesN
  · intro m hm hok'
    have htsmem : m.timestamp_seconds ∈
        a.key_moments.map (fun m => m.timestamp_seconds) :=
      List.mem_map_of_mem _ hm
    constructor
    · apply cleanupStage_keeps
      · show framePathIn (framesDir video.id) m.timestamp_seconds ∈ B.2.files
        rw [hB]
        exact extractBatchGo_files_ok env _ _ _ _ _ _ htsmem hok'
      · exact framePath_ne_videoPath _ _ _
    · rw [cleanupStage_db]
      show ∃ r ∈ updateFramePaths video.id B.1 B.2.db.video_moments,
        r.video_id = video.id ∧ r.timestamp_seconds = m.timestamp_seconds ∧
        r.frame_path =
          some (framePathIn (framesDir video.id) m.timestamp_seconds)
      have hmom : B.2.db.video_moments =
          insertMoments st.db.video_moments video.id a.key_moments := by
        rw [hBdb, hdb']
        rfl
      obtain ⟨r0, hr0, hr0v, hr0t⟩ :=
        insertMoments_key_mem video.id a.key_moments st.db.video_moments m hm
      rw [updateFramePaths_eq_map, hmom]
      refine ⟨applyFrameUpdates video.id B.1 r0, List.mem_map_of_mem _ hr0,
        (applyFrameUpdates_key video.id B.1 r0).1.trans hr0v,
        (applyFrameUpdates_key video.id B.1 r0).2.trans hr0t, ?_⟩
      have hget : dictGetNat B.1 m.timestamp_seconds =
          some (framePathIn (framesDir video.id) m.timestamp_seconds) := by
        rw [hB, extract_frames_batch,
          extractBatchGo_get env (videoFilePath video.id) (framesDir video.id)
            (a.key_moments.map (fun m => m.timestamp_seconds)) [] S
            (fun ts p h => by simp [dictGetNat] at h)]
        exact ⟨rfl, Or.inl ⟨htsmem, hok'⟩⟩
      have hpair := dictGetNat_mem _ _ _ hget
      have hkeysnd : (B.1.map Prod.fst).Nodup := by
        rw [hB, extract_frames_batch]
        exact extractBatchGo_keys_nodup env _ _ _ _ _ (by simp)
      exact applyFrameUpdates_sets video.id B.1 r0 _ _ hpair hkeysnd hr0v hr0t

/-- Witness for C5 on a concrete completed run with one key moment: the
    local video file is gone afterwards. -/
theorem process_video_frames_completed_witness :
    videoFilePath 1 ∉ (process_video envEx 1 false stEx).2.files :=
  (process_video_frames_completed envEx 1 false stEx aEx rfl (by decide)
    (by decide)).2.1

/-! ## Batch isolation (C8) -/

/-- Events emitted by the pipeline stages themselves (never by the batch
    loop). -/
def pipelineEv : Ev → Bool
  | .rateLimit _ => true
  | .download _ _ => true
  | .analyze _ => true
  | .ffmpeg _ _ _ => true
  | .unlink _ => true
  | .jobStart _ => false
  | .errorReported _ => false
  | .pause => false

theorem pipelineEv_ne_pause (e : Ev) (h : pipelineEv e = true) :
    e ≠ Ev.pause := by
  cases e <;> simp_all [pipelineEv]

theorem pipelineEv_ne_errorReported (e : Ev) (h : pipelineEv e = true)
    (v : Nat) : e ≠ Ev.errorReported v := by
  cases e <;> simp_all [pipelineEv]

theorem process_video_trace (env : PEnv) (vid : Nat) (skip : Bool)
    (st : PState) :
    ∃ ex : List Ev, (process_video env vid skip st).2.trace = st.trace ++ ex ∧
      (∀ e ∈ ex, pipelineEv e = true) ∧
      (∀ a, (process_video env vid skip st).1 = .ok a → ex ≠ []) := by
  cases hfind : st.db.videos.find? (fun v => v.id == vid) with
  | none =>
      rw [process_video_eq_of_none env vid skip st hfind]
      exact ⟨[], by simp, by simp, fun a ha => by simp at ha⟩
  | some video =>
      rw [process_video_eq_of_find env vid skip st video hfind]
      by_cases hskip : skip = true ∧ videoFilePath video.id ∈ st.files
      · rw [if_pos hskip]
        obtain ⟨ex, hex, hall, hne⟩ := afterDownload_trace env video.id
          (videoFilePath video.id) st
        refine ⟨ex, hex, ?_, hne⟩
        intro e he
        rcases hall e he with h | h | ⟨ts, out, h⟩ | h <;> subst h <;> rfl
      · rw [if_neg hskip]
        by_cases hrl : env.rateOk "youtube_data" = true
        · rw [if_pos hrl]
          by_cases hdl : env.downloadOk = true
          · rw [if_pos hdl]
            obtain ⟨ex, hex, hall, _⟩ := afterDownload_trace env video.id
              (videoFilePath video.id)
              (addFile ⟨st.db, st.files, st.trace ++
                [Ev.rateLimit "youtube_data",
                 Ev.download video.url (videoFilePath video.id)]⟩
                (videoFilePath video.id))
            refine ⟨[Ev.rateLimit "youtube_data",
              Ev.download video.url (videoFilePath video.id)] ++ ex, ?_, ?_, ?_⟩
            · rw [hex, addFile_trace]
              simp
            · intro e he
              rcases List.mem_append.mp he with he | he
              · rcases List.mem_cons.mp he with he | he
                · subst he; rfl
                rcases List.mem_cons.mp he with he | he
                · subst he; rfl
                · exact absurd he (List.not_mem_nil _)
              · rcases hall e he with h | h | ⟨ts, out, h⟩ | h <;> subst h <;> rfl
            · intro a _
              simp
          · rw [if_neg hdl]
            refine ⟨[Ev.rateLimit "youtube_data",
              Ev.download video.url (videoFilePath video.id)], rfl, ?_,
              fun a ha => by simp at ha⟩
            intro e he
            rcases List.mem_cons.mp he with he | he
            · subst he; rfl
            rcases List.mem_cons.mp he with he | he
            · subst he; rfl
            · exact absurd he (List.not_mem_nil _)
        · rw [if_neg hrl]
          exact ⟨[], by simp, by simp, fun a ha => by simp at ha⟩

/-- The job headers printed by the batch loop, in order. -/
def jobStarts (t : List Ev) : List Nat :=
  t.filterMap (fun e =>
    match e with
    | Ev.jobStart v => some v
    | _ => none)

theorem jobStarts_append (a b : List Ev) :
    jobStarts (a ++ b) = jobStarts a ++ jobStarts b :=
  List.filterMap_append a b _

theorem jobStarts_pipeline (ex : List Ev)
    (h : ∀ e ∈ ex, pipelineEv e = true) : jobStarts ex = [] := by
  apply List.filterMap_eq_nil.mpr
  intro e he
  have := h e he
  cases e <;> simp_all [pipelineEv]

theorem jobStarts_jobStart (v : Nat) :
    jobStarts [Ev.jobStart v] = [v] := rfl

theorem jobStarts_errorReported (v : Nat) :
    jobStarts [Ev.errorReported v] = [] := rfl

theorem jobStarts_pause : jobStarts [Ev.pause] = [] := rfl

/-- No pause event directly follows an error report in the trace. -/
def noPauseAfterError (t : List Ev) : Prop :=
  ∀ k v, t.get? k = some (Ev.errorReported v) → t.get? (k + 1) ≠ some Ev.pause

theorem noPause_append_no_pause (t ex : List Ev) (h : noPauseAfterError t)
    (hex : ∀ e ∈ ex, e ≠ Ev.pause) : noPauseAfterError (t ++ ex) := by
  intro k v hk hpause
  by_cases h1 : k + 1 < t.length
  · rw [List.get?_append h1] at hpause
    rw [List.get?_append (by omega)] at hk
    exact h k v hk hpause
  · rw [List.get?_append_right (by omega)] at hpause
    exact hex _ (List.get?_mem hpause) rfl

theorem noPause_append_pause (t : List Ev) (h : noPauseAfterError t)
    (hlast : ∀ v, t.getLast? ≠ some (Ev.errorReported v)) :
    noPauseAfterError (t ++ [Ev.pause]) := by
  intro k v hk hpause
  by_cases hkl : k < t.length
  · rw [List.get?_append hkl] at hk
    by_cases h1 : k + 1 < t.length
    · rw [List.get?_append h1] at hpause
      exact h k v hk hpause
    · have hkeq : k = t.length - 1 := by omega
      apply hlast v
      have hgl : t.getLast? = t.get? (t.length - 1) := List.getLast?_eq_get? ..
      rw [hgl, ← hkeq]
      exact hk
  · rw [List.get?_append_right (by omega)] at hk
    have := List.get?_mem hk
    simp at this

theorem batchGo_props (envs : Nat → PEnv) :
    ∀ (jobs : List Nat) (i : Nat) (st : PState),
    (jobStarts (batchGo envs i jobs st).trace = jobStarts st.trace ++ jobs) ∧
    (noPauseAfterError st.trace →
      noPauseAfterError (batchGo envs i jobs st).trace) ∧
    (jobs ≠ [] → (batchGo envs i jobs st).trace.getLast? ≠ some Ev.pause)
  | [], i, st =>
      ⟨by simp [batchGo], fun h => h, fun h => absurd rfl h⟩
  | vid :: rest, i, st => by
      obtain ⟨expv, hexpv, hallpv, hnepv⟩ := process_video_trace (envs i) vid
        false ⟨st.db, st.files, st.trace ++ [Ev.jobStart vid]⟩
      have hst1tr : (⟨st.db, st.files, st.trace ++ [Ev.jobStart vid]⟩ :
          PState).trace = st.trace ++ [Ev.jobStart vid] := rfl
      rw [hst1tr] at hexpv
      simp only [batchGo]
      cases hr : (process_video (envs i) vid false
          ⟨st.db, st.files, st.trace ++ [Ev.jobStart vid]⟩).1 with
      | error e =>
          have ih := batchGo_props envs rest (i + 1)
            ⟨(process_video (envs i) vid false
                ⟨st.db, st.files, st.trace ++ [Ev.jobStart vid]⟩).2.db,
             (process_video (envs i) vid false
                ⟨st.db, st.files, st.trace ++ [Ev.jobStart vid]⟩).2.files,
             (process_video (envs i) vid false
                ⟨st.db, st.files, st.trace ++ [Ev.jobStart vid]⟩).2.trace ++
               [Ev.errorReported vid]⟩
          refine ⟨?_, ?_, ?_⟩
          · rw [ih.1]
            show jobStarts ((process_video (envs i) vid false
                ⟨st.db, st.files, st.trace ++ [Ev.jobStart vid]⟩).2.trace ++
                  [Ev.errorReported vid]) ++ rest =
              jobStarts st.trace ++ (vid :: rest)
            rw [hexpv, jobStarts_append, jobStarts_append, jobStarts_append,
              jobStarts_pipeline expv hallpv, jobStarts_jobStart,
              jobStarts_errorReported]
            simp
          · intro h
            apply ih.2.1
            show noPauseAfterError ((process_video (envs i) vid false
              ⟨st.db, st.files, st.trace ++ [Ev.jobStart vid]⟩).2.trace ++
                [Ev.errorReported vid])
            rw [hexpv]
            apply noPause_append_no_pause
            · apply noPause_append_no_pause
              · exact noPause_append_no_pause st.trace _ h (by simp)
              · exact fun e he => pipelineEv_ne_pause e (hallpv e he)
            · simp
          · intro _
            by_cases hre2 : rest = []
            · subst hre2
              show ((process_video (envs i) vid false
                ⟨st.db, st.files, st.trace ++ [Ev.jobStart vid]⟩).2.trace ++
                  [Ev.errorReported vid]).getLast? ≠ some Ev.pause
              rw [List.getLast?_append_of_ne_nil _ (by simp)]
              simp
            · exact ih.2.2 hre2
      | ok a =>
          by_cases hre : rest = []
          · subst hre
            simp only [List.isEmpty_nil, if_true]
            have ih := batchGo_props envs [] (i + 1)
              (process_video (envs i) vid false
                ⟨st.db, st.files, st.trace ++ [Ev.jobStart vid]⟩).2
            refine ⟨?_, ?_, ?_⟩
            · rw [ih.1, hexpv, jobStarts_append, jobStarts_append,
                jobStarts_pipeline expv hallpv, jobStarts_jobStart]
              simp
            · intro h
              apply ih.2.1
              rw [hexpv]
              apply noPause_append_no_pause
              · exact noPause_append_no_pause st.trace _ h (by simp)
              · exact fun e he => pipelineEv_ne_pause e (hallpv e he)
            · intro _
              show (batchGo envs (i + 1) [] _).trace.getLast? ≠ some Ev.pause
              have hbn : batchGo envs (i + 1) []
                  (process_video (envs i) vid false
                    ⟨st.db, st.files, st.trace ++ [Ev.jobStart vid]⟩).2 =
                  (process_video (envs i) vid false
                    ⟨st.db, st.files, st.trace ++ [Ev.jobStart vid]⟩).2 := rfl
              rw [hbn, hexpv,
                List.getLast?_append_of_ne_nil _ (hnepv a hr),
                List.getLast?_eq_getLast _ (hnepv a hr)]
              intro hlp
              exact pipelineEv_ne_pause _
                (hallpv _ (List.getLast_mem (hnepv a hr)))
                (Option.some.inj hlp)
          · rw [if_neg (by simpa using hre)]
            have ih := batchGo_props envs rest (i + 1)
              ⟨(process_video (envs i) vid false
                  ⟨st.db, st.files, st.trace ++ [Ev.jobStart vid]⟩).2.db,
               (process_video (envs i) vid false
                  ⟨st.db, st.files, st.trace ++ [Ev.jobStart vid]⟩).2.files,
               (process_video (envs i) vid false
                  ⟨st.db, st.files, st.trace ++ [Ev.jobStart vid]⟩).2.trace ++
                 [Ev.pause]⟩
            have hlastpv : ∀ v, ((process_video (envs i) vid false
                ⟨st.db, st.files, st.trace ++ [Ev.jobStart vid]⟩).2.trace).getLast? ≠
                some (Ev.errorReported v) := by
              intro v
              rw [hexpv, List.getLast?_append_of_ne_nil _ (hnepv a hr)]
              rw [List.getLast?_eq_getLast _ (hnepv a hr)]
              intro hlp
              have hmem := List.getLast_mem (hnepv a hr)
              exact pipelineEv_ne_errorReported _ (hallpv _ hmem) v
                (Option.some.inj hlp)
            refine ⟨?_, ?_, ?_⟩
            · rw [ih.1]
              show jobStarts ((process_video (envs i) vid false
                  ⟨st.db, st.files, st.trace ++ [Ev.jobStart vid]⟩).2.trace ++
                    [Ev.pause]) ++ rest = jobStarts st.trace ++ (vid :: rest)
              rw [hexpv, jobStarts_append, jobStarts_append, jobStarts_append,
                jobStarts_pipeline expv hallpv, jobStarts_jobStart,
                jobStarts_pause]
              simp
            · intro h
              apply ih.2.1
              show noPauseAfterError ((process_video (envs i) vid false
                ⟨st.db, st.files, st.trace ++ [Ev.jobStart vid]⟩).2.trace ++
                  [Ev.pause])
              apply noPause_append_pause _ _ hlastpv
              rw [hexpv]
              apply noPause_append_no_pause
              · exact noPause_append_no_pause st.trace _ h (by simp)
              · exact fun e he => pipelineEv_ne_pause e (hallpv e he)
            · intro _
              exact ih.2.2 hre

def vEx2 : VideoRow :=
  { id := 2, url := "u2", title := "t2", description := "d2",
    analysis_status := "pending", frames_status := "pending",
    updated_at := 0 }

def vEx3 : VideoRow :=
  { id := 3, url := "u3", title := "t3", description := "d3",
    analysis_status := "pending", frames_status := "pending",
    updated_at := 0 }

def stEx3 : PState := ⟨⟨[vEx, vEx2, vEx3], [], []⟩, [], []⟩

/-- Oracle with a failing downloader (yt-dlp leaves no file). -/
def envFailDl : PEnv :=
  { rateOk := fun _ => true, downloadOk := false, analysisResult := .ok aEx2,
    extractOk := fun _ _ => false, saveFailAt := none, now := 7 }

/-- Per-position oracles for the three-job scenario: the second job's
    download fails, the others succeed. -/
def envsEx3 : Nat → PEnv := fun i => if i = 2 then envFailDl else envEx0

/-- C8 (amended): `process_batch` processes the selected jobs strictly
    sequentially, and a fatal error raised while processing one job never
    aborts the batch — the error is caught and reported and the next job is
    still processed (shown concretely on three jobs whose second fails with
    a download error); the fixed pause is inserted after a successfully
    processed item that is not the last, and no pause follows a failed item
    or the final item. -/
theorem process_batch_error_isolation (envs : Nat → PEnv) (jobs : List Nat)
    (st : PState) :
    (jobStarts (process_batch envs jobs st).trace =
      jobStarts st.trace ++ jobs) ∧
    (noPauseAfterError st.trace →
      noPauseAfterError (process_batch envs jobs st).trace) ∧
    (jobs ≠ [] →
      (process_batch envs jobs st).trace.getLast? ≠ some Ev.pause) ∧
    (jobStarts (process_batch envsEx3 [1, 2, 3] stEx3).trace = [1, 2, 3] ∧
      Ev.errorReported 2 ∈ (process_batch envsEx3 [1, 2, 3] stEx3).trace ∧
      Ev.errorReported 1 ∉ (process_batch envsEx3 [1, 2, 3] stEx3).trace ∧
      Ev.errorReported 3 ∉ (process_batch envsEx3 [1, 2, 3] stEx3).trace) :=
  ⟨(batchGo_props envs jobs 1 st).1, (batchGo_props envs jobs 1 st).2.1,
   (batchGo_props envs jobs 1 st).2.2,
   by decide, by decide, by decide, by decide⟩

/-- Witness for C8: no trailing pause in the concrete three-job run. -/
theorem process_batch_error_isolation_witness :
    (process_batch envsEx3 [1, 2, 3] stEx3).trace.getLast? ≠ some Ev.pause :=
  (process_batch_error_isolation envsEx3 [1, 2, 3] stEx3).2.2.1 (by decide)

/-- C8 as literally stated ("a fixed pause inserted between consecutive
    items") is false on the code: in the three-job run where job 2 raises a
    fatal download error, all three items are processed consecutively but
    only one pause occurs (after successful item 1) — the `continue` in the
    except-branch skips the sleep, so no pause separates items 2 and 3. -/
theorem process_batch_pause_counterexample :
    jobStarts (process_batch envsEx3 [1, 2, 3] stEx3).trace = [1, 2, 3] ∧
    (process_batch envsEx3 [1, 2, 3] stEx3).trace.count Ev.pause = 1 :=
  ⟨by decide, by decide⟩

end VideoAnalyzer
